import Mathlib

/-! # FXManifest generator (`generator.cpp`): categorisation, dependency extraction, rendering

A shallow embedding of `generator.cpp`.

* A `std::string` is the list of its bytes (`Str`), every byte as its unsigned value.
* `std::string::npos` is `none`; a found position is `some pos`.
* `std::set<std::string>` is the list of its elements in iteration order (ascending,
  duplicate free); `setInsert` is `std::set::insert`.
* The only input of `categorizeFile` besides its arguments is the file it opens with
  `std::ifstream luaFile(relativePath)`: `openFile relativePath` is `none` when the stream
  is not open and `some content` (the bytes of the file) otherwise.
* `scanDirectory` runs over the paths `entry.path()` of the regular files the recursive
  iterator yields. The reserved names are tested on `entry.path().filename()`; what is
  categorised is `getRelativePath(directory, entry.path())`, a parameter of the scan, since
  `fs::relative` resolves symbolic links. `relativeTo directory` is that function on a tree
  without symbolic links.
* The text written to the output stream is a `Str` (`manifestText`); `manifestLines` is the
  same text line by line, one element per `\n` written. `generateManifest` takes the
  directory and computes the folder name with `filename`, as generator.cpp:124 does.
* `main` takes `argv[1..]` and an `Env` that answers what the program asks of the file
  system and of the console; it returns the exit status and how `generateManifest` ended.
  A run whose directory iteration throws ends with status 134 (abort), no manifest.
-/

namespace Generator

/-! ## Strings -/

/-- A `std::string`: its bytes in order. -/
abbrev Str := List Nat

/-- The bytes of an ASCII string literal of the source. -/
def lit (s : String) : Str := s.toList.map Char.toNat

/-- `::tolower` in the "C" locale: `A`..`Z` (65..90) go to `a`..`z`, every other byte is kept. -/
def tolower (c : Nat) : Nat := if 65 ≤ c ∧ c ≤ 90 then c + 32 else c

/-- `std::transform(s.begin(), s.end(), s.begin(), ::tolower)`. -/
def toLowerStr (s : Str) : Str := s.map tolower

/-- `str.substr(pos, len)` for `pos ≤ str.length()`. -/
def substr (str : Str) (pos len : Nat) : Str := (str.drop pos).take len

/-- `endsWith` (generator.cpp:20-23); `str.compare(pos, len, suffix) == 0` compares
`str.substr(pos, len)` with `suffix`. -/
def endsWith (str suffix : Str) : Bool :=
  if str.length < suffix.length then false
  else decide (substr str (str.length - suffix.length) suffix.length = suffix)

/-- `std::string::find(sub, 0)` on the rest of the string starting at position `pos`. -/
def findFrom (sub : Str) : Str → Nat → Option Nat
  | [], pos => if sub = [] then some pos else none
  | c :: cs, pos => if sub.isPrefixOf (c :: cs) then some pos else findFrom sub cs (pos + 1)

/-- `str.find(sub)`: the lowest position where `sub` occurs, `none` for `npos`. -/
def find (str sub : Str) : Option Nat := findFrom sub str 0

/-- `std::string::rfind(sub)` on the rest of the string starting at position `pos`. -/
def rfindFrom (sub : Str) : Str → Nat → Option Nat
  | [], pos => if sub = [] then some pos else none
  | c :: cs, pos =>
    match rfindFrom sub cs (pos + 1) with
    | some later => some later
    | none => if sub.isPrefixOf (c :: cs) then some pos else none

/-- `str.rfind(sub)`: the highest position where `sub` occurs, `none` for `npos`. -/
def rfind (str sub : Str) : Option Nat := rfindFrom sub str 0

/-- `contains` (generator.cpp:25-27): `str.find(substr) != std::string::npos`. -/
def contains (str sub : Str) : Bool := (find str sub).isSome

/-- `operator<` of `std::string`: byte-wise lexicographic, a proper prefix is smaller. -/
def strLt : Str → Str → Bool
  | [], [] => false
  | [], _ :: _ => true
  | _ :: _, [] => false
  | a :: as, b :: bs => if a < b then true else if b < a then false else strLt as bs

/-- The order `std::sort` leaves two neighbours in: the right one is not smaller. -/
def strLe (a b : Str) : Prop := strLt b a = false

instance strLe.decidable : DecidableRel strLe := fun a b => by
  unfold strLe
  exact inferInstance

/-- `std::sort(v.begin(), v.end())` on a vector of strings. The order is total and two
strings that compare equal are the same string, so the sorted vector is unique. -/
def sortPaths (v : List Str) : List Str := v.insertionSort strLe

/-- `std::set<std::string>::insert` on the elements in iteration order. -/
def setInsert (x : Str) : List Str → List Str
  | [] => [x]
  | y :: ys =>
    if strLt x y then x :: y :: ys
    else if strLt y x then y :: setInsert x ys
    else y :: ys

/-- The lines `while (std::getline(file, line))` yields for a file with the given bytes:
split at every `\n` (byte 10); a last line without `\n` counts when it is not empty. -/
def getlines : Str → List Str
  | [] => []
  | c :: cs =>
    if c = 10 then [] :: getlines cs
    else
      match getlines cs with
      | [] => [[c]]
      | l :: ls => (c :: l) :: ls

/-! ## Data model -/

/-- `struct FileCategories` (generator.cpp:11-18). -/
structure FileCategories where
  client_scripts : List Str := []
  server_scripts : List Str := []
  shared_scripts : List Str := []
  files : List Str := []
  ui_pages : List Str := []
  dependencies : List Str := []
  deriving DecidableEq, Repr

/-! ## categorizeFile -/

/-- The body of the `while (std::getline(luaFile, line))` loop (generator.cpp:53-62),
as a function from the dependency set before the line to the set after it. -/
def processLine (dependencies : List Str) (line : Str) : List Str :=
  let lowerLine := toLowerStr line
  if contains lowerLine (lit "dependency") then
    match find lowerLine (lit "'"), rfind lowerLine (lit "'") with
    | some start, some stop =>
      if stop > start then setInsert (substr lowerLine (start + 1) (stop - start - 1)) dependencies
      else dependencies
    | _, _ => dependencies
  else dependencies

/-- `categorizeFile` (generator.cpp:34-78). -/
def categorizeFile (openFile : Str → Option Str) (relativePath : Str)
    (categories : FileCategories) : FileCategories :=
  let lowerPath := toLowerStr relativePath
  if endsWith lowerPath (lit ".lua") then
    let categories :=
      if contains lowerPath (lit "client") || contains lowerPath (lit "cl_") then
        { categories with client_scripts := categories.client_scripts ++ [relativePath] }
      else if contains lowerPath (lit "server") || contains lowerPath (lit "sv_") then
        { categories with server_scripts := categories.server_scripts ++ [relativePath] }
      else if contains lowerPath (lit "shared") || contains lowerPath (lit "sh_") then
        { categories with shared_scripts := categories.shared_scripts ++ [relativePath] }
      else
        { categories with shared_scripts := categories.shared_scripts ++ [relativePath] }
    match openFile relativePath with
    | some content =>
      { categories with
        dependencies := (getlines content).foldl processLine categories.dependencies }
    | none => categories
  else if endsWith lowerPath (lit ".html") then
    { categories with
      ui_pages := categories.ui_pages ++ [relativePath]
      files := categories.files ++ [relativePath] }
  else if endsWith lowerPath (lit ".js") || endsWith lowerPath (lit ".css") ||
      endsWith lowerPath (lit ".png") || endsWith lowerPath (lit ".jpg") ||
      endsWith lowerPath (lit ".jpeg") || endsWith lowerPath (lit ".gif") ||
      endsWith lowerPath (lit ".svg") || endsWith lowerPath (lit ".ttf") ||
      endsWith lowerPath (lit ".woff") || endsWith lowerPath (lit ".woff2") ||
      endsWith lowerPath (lit ".otf") || endsWith lowerPath (lit ".eot") ||
      endsWith lowerPath (lit ".json") || endsWith lowerPath (lit ".ogg") ||
      endsWith lowerPath (lit ".mp3") || endsWith lowerPath (lit ".wav") then
    { categories with files := categories.files ++ [relativePath] }
  else categories

/-- The dependency scan of `categorizeFile` alone (generator.cpp:49-64): the file is opened
and each of its lines goes through the loop body; no path list is touched. -/
def dependencyScan (openFile : Str → Option Str) (relativePath : Str)
    (categories : FileCategories) : FileCategories :=
  match openFile relativePath with
  | some content =>
    { categories with
      dependencies := (getlines content).foldl processLine categories.dependencies }
  | none => categories

/-- The extensions of the third test of `categorizeFile` (generator.cpp:68-75). -/
def assetExtensions : List Str :=
  [lit ".js", lit ".css", lit ".png", lit ".jpg", lit ".jpeg", lit ".gif", lit ".svg",
    lit ".ttf", lit ".woff", lit ".woff2", lit ".otf", lit ".eot", lit ".json", lit ".ogg",
    lit ".mp3", lit ".wav"]

/-! ## scanDirectory -/

/-- `path::filename()` of a path in generic format: what follows the last `/` (byte 47). -/
def filename : Str → Str
  | [] => []
  | c :: cs => if 47 ∈ cs then filename cs else if c = 47 then cs else c :: cs

/-- `scanDirectory` (generator.cpp:80-91). `entries` are the paths `entry.path()` of the
regular files the recursive directory iterator yields, in its order. `getRelativePath` is
`getRelativePath(directory, ·)` of generator.cpp:29-32 on the file system of the run, that
is `fs::relative(·, directory).generic_string()`; it resolves symbolic links, so the
relative path of an entry need not end in the entry's own name. The reserved names are
tested on the entry's own name (generator.cpp:83-86), the relative path is what is
categorised (generator.cpp:87-88). -/
def scanDirectory (getRelativePath : Str → Str) (openFile : Str → Option Str)
    (entries : List Str) (categories : FileCategories) : FileCategories :=
  entries.foldl
    (fun cats entryPath =>
      let lowerFilename := toLowerStr (filename entryPath)
      if lowerFilename = lit "fxmanifest.lua" ∨ lowerFilename = lit "__resource.lua" then cats
      else
        let relativePath := getRelativePath entryPath
        categorizeFile openFile relativePath cats)
    categories

/-- What `getRelativePath(directory, ·)` returns for an entry path that starts with
`directory` and a separator when no symbolic link is involved: the rest of the entry
path. -/
def relativeTo (directory : Str) (entryPath : Str) : Str :=
  entryPath.drop (directory.length + 1)

/-- The states `categorizeFile` can build from the empty `FileCategories`, whatever the
paths and whatever each opened file holds. -/
inductive Reachable : FileCategories → Prop
  | empty : Reachable {}
  | step (openFile : Str → Option Str) (relativePath : Str) (categories : FileCategories) :
      Reachable categories → Reachable (categorizeFile openFile relativePath categories)

/-! ## generateManifest -/

/-- One `if (!sorted.empty()) { ... }` block of generator.cpp:136-160: the opening text,
one line per path, the closing text. -/
def renderBlock (opening : Str) (sorted : List Str) (closing : Str) : Str :=
  if sorted ≠ [] then
    opening ++ sorted.flatMap (fun s => lit "    '" ++ s ++ lit "',\n") ++ closing
  else []

/-- The text `generateManifest` writes to `out` (generator.cpp:94-104 and 121-160);
`folderName` is `directory.filename().string()`. -/
def manifestText (folderName : Str) (categories : FileCategories) : Str :=
  let sortedClient := sortPaths categories.client_scripts
  let sortedServer := sortPaths categories.server_scripts
  let sortedShared := sortPaths categories.shared_scripts
  let sortedFiles := sortPaths categories.files
  let sortedUI := sortPaths categories.ui_pages
  lit "fx_version 'cerulean'\n" ++
  lit "game 'gta5'\n\n" ++
  lit "author 'Auto-Generated'\n" ++
  (lit "description '" ++ folderName ++ lit "'\n") ++
  lit "version '1.0.0'\n\n" ++
  (if categories.dependencies ≠ [] then
    categories.dependencies.flatMap (fun dep => lit "dependency '" ++ dep ++ lit "'\n") ++
      lit "\n"
   else []) ++
  renderBlock (lit "shared_scripts \x7b\n") sortedShared (lit "\x7d\n\n") ++
  renderBlock (lit "client_scripts \x7b\n") sortedClient (lit "\x7d\n\n") ++
  renderBlock (lit "server_scripts \x7b\n") sortedServer (lit "\x7d\n\n") ++
  renderBlock (lit "ui_page \x7b\n") sortedUI (lit "\x7d\n\n") ++
  renderBlock (lit "files \x7b\n") sortedFiles (lit "\x7d\n")

/-- What a call of `generateManifest` leaves behind. -/
inductive RenderResult
  | preview (text : Str)
  | written (text : Str)
  | openFailed
  deriving DecidableEq, Repr

/-- `generateManifest` (generator.cpp:93-166). `canOpen` tells whether
`fileOut.open(manifestPath)` succeeds. With `dryRun` the text goes to `std::cout`;
otherwise it goes to the file, or nothing is written when the file cannot be opened. The
folder name of the description line is `directory.filename().string()`
(generator.cpp:124). -/
def generateManifest (directory : Str) (categories : FileCategories) (dryRun canOpen : Bool) :
    RenderResult :=
  let folderName := filename directory
  if dryRun then RenderResult.preview (manifestText folderName categories)
  else if !canOpen then RenderResult.openFailed
  else RenderResult.written (manifestText folderName categories)

/-- The lines one `if (!sorted.empty()) { ... }` block of generator.cpp:136-160 writes:
the opening line, one line per path, the closing lines. -/
def blockLines (opening : Str) (sorted : List Str) (closing : List Str) : List Str :=
  if sorted ≠ [] then
    [opening] ++ sorted.map (fun s => lit "    '" ++ s ++ lit "',") ++ closing
  else []

/-- The lines `generateManifest` writes to `out`, one element per `\n` written
(generator.cpp:121-160); `manifestText` is these lines, each followed by `\n`. -/
def manifestLines (folderName : Str) (categories : FileCategories) : List Str :=
  let sortedClient := sortPaths categories.client_scripts
  let sortedServer := sortPaths categories.server_scripts
  let sortedShared := sortPaths categories.shared_scripts
  let sortedFiles := sortPaths categories.files
  let sortedUI := sortPaths categories.ui_pages
  [lit "fx_version 'cerulean'", lit "game 'gta5'", [], lit "author 'Auto-Generated'",
    lit "description '" ++ folderName ++ lit "'", lit "version '1.0.0'", []] ++
  (if categories.dependencies ≠ [] then
    categories.dependencies.map (fun dep => lit "dependency '" ++ dep ++ lit "'") ++ [[]]
   else []) ++
  blockLines (lit "shared_scripts \x7b") sortedShared [lit "\x7d", []] ++
  blockLines (lit "client_scripts \x7b") sortedClient [lit "\x7d", []] ++
  blockLines (lit "server_scripts \x7b") sortedServer [lit "\x7d", []] ++
  blockLines (lit "ui_page \x7b") sortedUI [lit "\x7d", []] ++
  blockLines (lit "files \x7b") sortedFiles [lit "\x7d"]

/-- The lines a scan feeds to the loop body of the dependency scan, in order: for every
entry that is not skipped and whose lowercased relative path ends in `.lua`, the lines of
the file that `std::ifstream luaFile(relativePath)` opens (generator.cpp:86-88, 38,
49-52). -/
def scannedLines (getRelativePath : Str → Str) (openFile : Str → Option Str)
    (entries : List Str) : List Str :=
  entries.flatMap (fun entryPath =>
    let lowerFilename := toLowerStr (filename entryPath)
    if lowerFilename = lit "fxmanifest.lua" ∨ lowerFilename = lit "__resource.lua" then []
    else if endsWith (toLowerStr (getRelativePath entryPath)) (lit ".lua") then
      match openFile (getRelativePath entryPath) with
      | some content => getlines content
      | none => []
    else [])

/-- No name in the set holds an uppercase ASCII letter (`A`..`Z`, 65..90). -/
def AllLower (deps : List Str) : Prop := ∀ d ∈ deps, ∀ b ∈ d, ¬ (65 ≤ b ∧ b ≤ 90)

/-- A line of the manifest that starts with `dependency '`. -/
def isDependencyLine (line : Str) : Bool := (lit "dependency '").isPrefixOf line

/-! ## Files and the working directory -/

/-- The path `std::ifstream` opens for `path` in a process whose working directory is
`cwd`: an absolute path (first byte `/`, 47) is taken as it is, a relative one is resolved
against `cwd`. -/
def resolvePath (cwd path : Str) : Str :=
  if path.head? = some 47 then path else cwd ++ lit "/" ++ path

/-- `std::ifstream file(path)` in a process whose working directory is `cwd`, over a file
system `disk` that gives the bytes of the file at an absolute path. -/
def openFrom (disk : Str → Option Str) (cwd : Str) (path : Str) : Option Str :=
  disk (resolvePath cwd path)

/-- What a scan records for one entry alone, from the empty state, when no file opens:
the path lists the relative path of the entry is appended to. -/
def entryAlone (getRelativePath : Str → Str) (entryPath : Str) : FileCategories :=
  scanDirectory getRelativePath (fun _ => none) [entryPath] {}

/-- The opening lines of the five blocks of generator.cpp:136-160, in the order they are
written. -/
def blockOpenings : List Str :=
  [lit "shared_scripts \x7b", lit "client_scripts \x7b", lit "server_scripts \x7b",
    lit "ui_page \x7b", lit "files \x7b"]

/-- A line that gives the manifest its structure: a dependency line, the opening line of a
block, or the closing line of a block. -/
def isStructureLine (line : Str) : Bool :=
  isDependencyLine line || blockOpenings.contains line || line == lit "\x7d"

/-- The line written for one path inside a block (generator.cpp:138, 143, 148, 153, 158). -/
def pathLine (path : Str) : Str := lit "    '" ++ path ++ lit "',"

/-! ## main -/

/-- What `generateManifest` has written where, for each way the call can end
(generator.cpp:108-118 and 162-165). `file` is the content of `fxmanifest.lua` the call
wrote, `none` when the file was not opened; `cout` and `cerr` are what the call sent to the
two streams; `shownPath` is the text `operator<<` prints for the manifest path. -/
structure RenderEffects where
  cout : Str
  cerr : Str
  file : Option Str
  deriving DecidableEq, Repr

/-- The effects of a call of `generateManifest` that ended as `result`. -/
def RenderResult.effects (shownPath : Str) : RenderResult → RenderEffects
  | RenderResult.preview text => { cout := text, cerr := [], file := none }
  | RenderResult.written text =>
    { cout := lit "\nfxmanifest.lua generated successfully at: " ++ shownPath ++ lit "\n"
      cerr := []
      file := some text }
  | RenderResult.openFailed =>
    { cout := [], cerr := lit "Error: Could not create fxmanifest.lua\n", file := none }

/-- What `main` asks of the world outside the program: the line typed at the prompt, the
answers of `fs::exists` and `fs::is_directory`, the paths of the regular files the recursive
iterator yields under a directory (`none` when the iteration throws
`std::filesystem::filesystem_error`, as it does on a directory it may not read), what
`getRelativePath(directory, entry)` returns, what `std::ifstream` opens, and whether
`fxmanifest.lua` can be opened for writing in a directory. -/
structure Env where
  stdinLine : Str
  pathExists : Str → Bool
  isDirectory : Str → Bool
  regularFiles : Str → Option (List Str)
  getRelativePath : Str → Str → Str
  openFile : Str → Option Str
  canCreate : Str → Bool

/-- How a run of `main` ends: the exit status, and how the call of `generateManifest` ended
when the run got that far. A run that ends by an exception nobody catches is aborted by
`std::terminate` (signal `SIGABRT`); its status is given as 134, as a shell reports it. -/
structure RunResult where
  exitCode : Nat
  render : Option RenderResult
  deriving DecidableEq, Repr

/-- The argument loop of `main` (generator.cpp:176-181) over `argv[1..]`: the path, the
dry-run flag and the verbose flag. -/
def parseArgs (args : List Str) : Str × Bool × Bool :=
  args.foldl
    (fun state arg =>
      if arg = lit "--dry-run" then (state.1, true, state.2.2)
      else if arg = lit "--verbose" then (state.1, state.2.1, true)
      else (arg, state.2.1, state.2.2))
    ([], false, false)

/-- `main` (generator.cpp:168-224), with `args` for `argv[1..]`. -/
def main (args : List Str) (env : Env) : RunResult :=
  let parsed := parseArgs args
  let path := if parsed.1 = [] then env.stdinLine else parsed.1
  let dryRun := parsed.2.1
  if !env.pathExists path then { exitCode := 1, render := none }
  else if !env.isDirectory path then { exitCode := 1, render := none }
  else
    match env.regularFiles path with
    | none => { exitCode := 134, render := none }
    | some entries =>
      let categories := scanDirectory (env.getRelativePath path) env.openFile entries {}
      { exitCode := 0
        render := some (generateManifest path categories dryRun (env.canCreate path)) }

/-! ## Strings: what `endsWith`, `contains`, `find` and `rfind` compute -/

theorem endsWith_iff (str suffix : Str) : endsWith str suffix = true ↔ suffix <:+ str := by
  unfold endsWith substr
  constructor
  · intro h
    split at h
    · exact absurd h (by simp)
    · rename_i hlen
      have h2 := of_decide_eq_true h
      have hl : (List.drop (str.length - suffix.length) str).length = suffix.length := by
        rw [List.length_drop]; omega
      have h3 : List.take suffix.length (List.drop (str.length - suffix.length) str)
          = List.drop (str.length - suffix.length) str :=
        List.take_of_length_le (le_of_eq hl)
      rw [h3] at h2
      rw [← h2]
      exact List.drop_suffix _ _
  · rintro ⟨t, rfl⟩
    have : ¬ (t ++ suffix).length < suffix.length := by simp
    rw [if_neg this]
    apply decide_eq_true
    simp

theorem findFrom_isSome (sub : Str) (str : Str) (pos : Nat) :
    (findFrom sub str pos).isSome = true ↔ sub <:+: str := by
  induction str generalizing pos with
  | nil =>
    unfold findFrom
    by_cases h : sub = []
    · simp [h]
    · simp [h]
  | cons c cs ih =>
    unfold findFrom
    rw [List.infix_cons_iff]
    by_cases h : sub.isPrefixOf (c :: cs) = true
    · rw [if_pos h]
      simp only [Option.isSome_some, true_iff]
      exact Or.inl (List.isPrefixOf_iff_prefix.1 h)
    · rw [if_neg h, ih]
      constructor
      · exact Or.inr
      · rintro (h1 | h1)
        · exact absurd (List.isPrefixOf_iff_prefix.2 h1) h
        · exact h1

theorem contains_iff (str sub : Str) : contains str sub = true ↔ sub <:+: str :=
  findFrom_isSome sub str 0

/-! ## categorizeFile: the branch taken -/

/-- Two suffixes of one string: one of them is a suffix of the other. Used to tell the
extensions apart. -/
theorem not_both_suffix (a b str : Str) (hab : ¬ a <:+ b) (hba : ¬ b <:+ a) (ha : a <:+ str) :
    ¬ b <:+ str := by
  intro hb
  rcases List.suffix_or_suffix_of_suffix ha hb with h | h
  · exact hab h
  · exact hba h

theorem dependencyScan_lists (openFile : Str → Option Str) (p : Str) (c : FileCategories) :
    (dependencyScan openFile p c).client_scripts = c.client_scripts ∧
    (dependencyScan openFile p c).server_scripts = c.server_scripts ∧
    (dependencyScan openFile p c).shared_scripts = c.shared_scripts ∧
    (dependencyScan openFile p c).files = c.files ∧
    (dependencyScan openFile p c).ui_pages = c.ui_pages := by
  unfold dependencyScan
  cases openFile p <;> simp

theorem categorizeFile_lua (openFile : Str → Option Str) (p : Str) (c : FileCategories)
    (h : lit ".lua" <:+ toLowerStr p) :
    categorizeFile openFile p c =
      dependencyScan openFile p
        (if lit "client" <:+: toLowerStr p ∨ lit "cl_" <:+: toLowerStr p then
          { c with client_scripts := c.client_scripts ++ [p] }
        else if lit "server" <:+: toLowerStr p ∨ lit "sv_" <:+: toLowerStr p then
          { c with server_scripts := c.server_scripts ++ [p] }
        else { c with shared_scripts := c.shared_scripts ++ [p] }) := by
  unfold categorizeFile dependencyScan
  simp only [(endsWith_iff _ _).2 h, if_true, Bool.or_eq_true, contains_iff]
  by_cases h1 : lit "client" <:+: toLowerStr p ∨ lit "cl_" <:+: toLowerStr p
  · simp only [h1, if_true]
  · by_cases h2 : lit "server" <:+: toLowerStr p ∨ lit "sv_" <:+: toLowerStr p
    · simp only [h1, h2, if_true, if_false]
    · simp only [h1, h2, if_false, ite_self]

/-- The script branch of `categorizeFile`, list by list: the first marker that matches
decides the one script list the path is appended to; `files` and `ui_pages` are kept. -/
theorem categorizeFile_script_lists (openFile : Str → Option Str) (p : Str)
    (c : FileCategories) (h : lit ".lua" <:+ toLowerStr p) :
    (((lit "client" <:+: toLowerStr p ∨ lit "cl_" <:+: toLowerStr p) ∧
        (categorizeFile openFile p c).client_scripts = c.client_scripts ++ [p] ∧
        (categorizeFile openFile p c).server_scripts = c.server_scripts ∧
        (categorizeFile openFile p c).shared_scripts = c.shared_scripts) ∨
      (¬ (lit "client" <:+: toLowerStr p ∨ lit "cl_" <:+: toLowerStr p) ∧
        (lit "server" <:+: toLowerStr p ∨ lit "sv_" <:+: toLowerStr p) ∧
        (categorizeFile openFile p c).client_scripts = c.client_scripts ∧
        (categorizeFile openFile p c).server_scripts = c.server_scripts ++ [p] ∧
        (categorizeFile openFile p c).shared_scripts = c.shared_scripts) ∨
      (¬ (lit "client" <:+: toLowerStr p ∨ lit "cl_" <:+: toLowerStr p) ∧
        ¬ (lit "server" <:+: toLowerStr p ∨ lit "sv_" <:+: toLowerStr p) ∧
        (categorizeFile openFile p c).client_scripts = c.client_scripts ∧
        (categorizeFile openFile p c).server_scripts = c.server_scripts ∧
        (categorizeFile openFile p c).shared_scripts = c.shared_scripts ++ [p])) ∧
    (categorizeFile openFile p c).files = c.files ∧
    (categorizeFile openFile p c).ui_pages = c.ui_pages := by
  rw [categorizeFile_lua openFile p c h]
  by_cases h1 : lit "client" <:+: toLowerStr p ∨ lit "cl_" <:+: toLowerStr p
  · rw [if_pos h1]
    obtain ⟨e1, e2, e3, e4, e5⟩ := dependencyScan_lists openFile p
      { c with client_scripts := c.client_scripts ++ [p] }
    exact ⟨Or.inl ⟨h1, e1, e2, e3⟩, e4, e5⟩
  · by_cases h2 : lit "server" <:+: toLowerStr p ∨ lit "sv_" <:+: toLowerStr p
    · rw [if_neg h1, if_pos h2]
      obtain ⟨e1, e2, e3, e4, e5⟩ := dependencyScan_lists openFile p
        { c with server_scripts := c.server_scripts ++ [p] }
      exact ⟨Or.inr (Or.inl ⟨h1, h2, e1, e2, e3⟩), e4, e5⟩
    · rw [if_neg h1, if_neg h2]
      obtain ⟨e1, e2, e3, e4, e5⟩ := dependencyScan_lists openFile p
        { c with shared_scripts := c.shared_scripts ++ [p] }
      exact ⟨Or.inr (Or.inr ⟨h1, h2, e1, e2, e3⟩), e4, e5⟩

theorem tolower_idem (b : Nat) : tolower (tolower b) = tolower b := by
  unfold tolower
  split_ifs <;> omega

theorem toLowerStr_idem (s : Str) : toLowerStr (toLowerStr s) = toLowerStr s := by
  unfold toLowerStr
  rw [List.map_map]
  exact List.map_congr_left (fun b _ => tolower_idem b)

theorem categorizeFile_not_lua (openFile : Str → Option Str) (p : Str) (c : FileCategories)
    (h : ¬ lit ".lua" <:+ toLowerStr p) :
    categorizeFile openFile p c =
      if lit ".html" <:+ toLowerStr p then
        { c with ui_pages := c.ui_pages ++ [p], files := c.files ++ [p] }
      else if ∃ ext ∈ assetExtensions, ext <:+ toLowerStr p then
        { c with files := c.files ++ [p] }
      else c := by
  unfold categorizeFile
  have h0 : endsWith (toLowerStr p) (lit ".lua") = false := by
    rw [← Bool.not_eq_true, endsWith_iff]; exact h
  simp only [h0, Bool.false_eq_true, if_false, Bool.or_eq_true, endsWith_iff, assetExtensions,
    List.mem_cons, List.mem_singleton, exists_eq_or_imp, exists_eq_left, or_assoc,
    List.not_mem_nil, false_and, exists_false, or_false]

theorem html_not_lua (s : Str) (h : lit ".html" <:+ s) : ¬ lit ".lua" <:+ s :=
  not_both_suffix (lit ".html") (lit ".lua") s (by decide) (by decide) h

theorem asset_not_lua (s : Str) (h : ∃ ext ∈ assetExtensions, ext <:+ s) :
    ¬ lit ".lua" <:+ s := by
  obtain ⟨ext, hmem, hsuf⟩ := h
  have key : ∀ e ∈ assetExtensions, ¬ e <:+ lit ".lua" ∧ ¬ lit ".lua" <:+ e := by decide
  exact not_both_suffix ext (lit ".lua") s (key ext hmem).1 (key ext hmem).2 hsuf

theorem asset_not_html (s : Str) (h : ∃ ext ∈ assetExtensions, ext <:+ s) :
    ¬ lit ".html" <:+ s := by
  obtain ⟨ext, hmem, hsuf⟩ := h
  have key : ∀ e ∈ assetExtensions, ¬ e <:+ lit ".html" ∧ ¬ lit ".html" <:+ e := by decide
  exact not_both_suffix ext (lit ".html") s (key ext hmem).1 (key ext hmem).2 hsuf

/-- One call of `categorizeFile` appends to `ui_pages` only what it also appends to
`files`, and never removes anything from `files`. -/
theorem categorizeFile_ui_files (openFile : Str → Option Str) (p : Str) (c : FileCategories) :
    ((categorizeFile openFile p c).ui_pages = c.ui_pages ∧
        ∃ tail, (categorizeFile openFile p c).files = c.files ++ tail) ∨
      ((categorizeFile openFile p c).ui_pages = c.ui_pages ++ [p] ∧
        (categorizeFile openFile p c).files = c.files ++ [p]) := by
  by_cases hl : lit ".lua" <:+ toLowerStr p
  · obtain ⟨-, h4, h5⟩ := categorizeFile_script_lists openFile p c hl
    exact Or.inl ⟨h5, [], by rw [h4]; simp⟩
  · rw [categorizeFile_not_lua openFile p c hl]
    by_cases h1 : lit ".html" <:+ toLowerStr p
    · rw [if_pos h1]
      exact Or.inr ⟨rfl, rfl⟩
    · rw [if_neg h1]
      by_cases h2 : ∃ ext ∈ assetExtensions, ext <:+ toLowerStr p
      · rw [if_pos h2]
        exact Or.inl ⟨rfl, [p], rfl⟩
      · rw [if_neg h2]
        exact Or.inl ⟨rfl, [], by simp⟩

theorem categorizeFile_ui_subset (openFile : Str → Option Str) (p : Str) (c : FileCategories)
    (h : ∀ q ∈ c.ui_pages, q ∈ c.files) :
    ∀ q ∈ (categorizeFile openFile p c).ui_pages, q ∈ (categorizeFile openFile p c).files := by
  rcases categorizeFile_ui_files openFile p c with ⟨e1, tail, e2⟩ | ⟨e1, e2⟩
  · rw [e1, e2]
    intro q hq
    exact List.mem_append_left _ (h q hq)
  · rw [e1, e2]
    intro q hq
    rcases List.mem_append.1 hq with hq | hq
    · exact List.mem_append_left _ (h q hq)
    · exact List.mem_append_right _ hq

/-- Every state a scan passes through is a reachable state. -/
theorem scanDirectory_reachable (getRelativePath : Str → Str)
    (openFile : Str → Option Str) (entries : List Str) (c : FileCategories)
    (h : Reachable c) : Reachable (scanDirectory getRelativePath openFile entries c) := by
  unfold scanDirectory
  induction entries generalizing c with
  | nil => exact h
  | cons e es ih =>
    rw [List.foldl_cons]
    apply ih
    dsimp only
    split_ifs
    · exact h
    · exact Reachable.step openFile (getRelativePath e) c h

/-! ## categorizeFile: classification of a path (C1 to C6) -/

/-- C1: a path whose lowercased form ends in `.lua` is appended to exactly one of the three
script lists, which grows by that one element; the two other script lists, `files` and
`ui_pages` stay as they were. -/
theorem categorizeFile_script_exactly_one (openFile : Str → Option Str) (p : Str)
    (c : FileCategories) (h : lit ".lua" <:+ toLowerStr p) :
    ((categorizeFile openFile p c).client_scripts = c.client_scripts ++ [p] ∧
        (categorizeFile openFile p c).server_scripts = c.server_scripts ∧
        (categorizeFile openFile p c).shared_scripts = c.shared_scripts ∨
      (categorizeFile openFile p c).client_scripts = c.client_scripts ∧
        (categorizeFile openFile p c).server_scripts = c.server_scripts ++ [p] ∧
        (categorizeFile openFile p c).shared_scripts = c.shared_scripts ∨
      (categorizeFile openFile p c).client_scripts = c.client_scripts ∧
        (categorizeFile openFile p c).server_scripts = c.server_scripts ∧
        (categorizeFile openFile p c).shared_scripts = c.shared_scripts ++ [p]) ∧
    (categorizeFile openFile p c).files = c.files ∧
    (categorizeFile openFile p c).ui_pages = c.ui_pages := by
  obtain ⟨hcases, h4, h5⟩ := categorizeFile_script_lists openFile p c h
  refine ⟨?_, h4, h5⟩
  rcases hcases with ⟨-, e⟩ | ⟨-, -, e⟩ | ⟨-, -, e⟩
  · exact Or.inl e
  · exact Or.inr (Or.inl e)
  · exact Or.inr (Or.inr e)

/-- C1 at `server/sv_init.lua`, from the empty state. -/
theorem categorizeFile_script_exactly_one_witness :
    lit ".lua" <:+ toLowerStr (lit "server/sv_init.lua") ∧
    (categorizeFile (fun _ => none) (lit "server/sv_init.lua") {}).server_scripts
      = [lit "server/sv_init.lua"] ∧
    (categorizeFile (fun _ => none) (lit "server/sv_init.lua") {}).files = [] :=
  ⟨by decide, by decide,
    (categorizeFile_script_exactly_one (fun _ => none) (lit "server/sv_init.lua") {}
      (by decide)).2.1⟩

/-- C2: for a script path the markers are tried in the order client, server, shared and the
first match wins: with `client` or `cl_` in the lowercased path the path goes to
`client_scripts` whatever else it contains; otherwise with `server` or `sv_` it goes to
`server_scripts`; otherwise it goes to `shared_scripts`. -/
theorem categorizeFile_marker_priority (openFile : Str → Option Str) (p : Str)
    (c : FileCategories) (h : lit ".lua" <:+ toLowerStr p) :
    ((lit "client" <:+: toLowerStr p ∨ lit "cl_" <:+: toLowerStr p) →
      (categorizeFile openFile p c).client_scripts = c.client_scripts ++ [p] ∧
      (categorizeFile openFile p c).server_scripts = c.server_scripts ∧
      (categorizeFile openFile p c).shared_scripts = c.shared_scripts) ∧
    (¬ (lit "client" <:+: toLowerStr p ∨ lit "cl_" <:+: toLowerStr p) →
      (lit "server" <:+: toLowerStr p ∨ lit "sv_" <:+: toLowerStr p) →
      (categorizeFile openFile p c).client_scripts = c.client_scripts ∧
      (categorizeFile openFile p c).server_scripts = c.server_scripts ++ [p] ∧
      (categorizeFile openFile p c).shared_scripts = c.shared_scripts) ∧
    (¬ (lit "client" <:+: toLowerStr p ∨ lit "cl_" <:+: toLowerStr p) →
      ¬ (lit "server" <:+: toLowerStr p ∨ lit "sv_" <:+: toLowerStr p) →
      (categorizeFile openFile p c).client_scripts = c.client_scripts ∧
      (categorizeFile openFile p c).server_scripts = c.server_scripts ∧
      (categorizeFile openFile p c).shared_scripts = c.shared_scripts ++ [p]) := by
  obtain ⟨hcases, -, -⟩ := categorizeFile_script_lists openFile p c h
  rcases hcases with ⟨m1, e⟩ | ⟨m1, m2, e⟩ | ⟨m1, m2, e⟩
  · exact ⟨fun _ => e, fun n1 => absurd m1 n1, fun n1 => absurd m1 n1⟩
  · exact ⟨fun n1 => absurd n1 m1, fun _ _ => e, fun _ n2 => absurd m2 n2⟩
  · exact ⟨fun n1 => absurd n1 m1, fun _ n2 => absurd n2 m2, fun _ _ => e⟩

/-- C2 at `server/client_handler.lua`: it carries both markers and is a client script. -/
theorem categorizeFile_marker_priority_witness :
    lit ".lua" <:+ toLowerStr (lit "server/client_handler.lua") ∧
    lit "server" <:+: toLowerStr (lit "server/client_handler.lua") ∧
    (categorizeFile (fun _ => none) (lit "server/client_handler.lua") {}).client_scripts
      = [lit "server/client_handler.lua"] ∧
    (categorizeFile (fun _ => none) (lit "server/client_handler.lua") {}).server_scripts = [] :=
  ⟨by decide, by decide,
    ((categorizeFile_marker_priority (fun _ => none) (lit "server/client_handler.lua") {}
      (by decide)).1 (Or.inl (by decide))).1,
    ((categorizeFile_marker_priority (fun _ => none) (lit "server/client_handler.lua") {}
      (by decide)).1 (Or.inl (by decide))).2.1⟩

/-- C3: a script path is appended to `shared_scripts` exactly when its lowercased form
contains none of `client`, `cl_`, `server`, `sv_`; with one of them `shared_scripts` is left
as it was. -/
theorem categorizeFile_shared_default (openFile : Str → Option Str) (p : Str)
    (c : FileCategories) (h : lit ".lua" <:+ toLowerStr p) :
    ((categorizeFile openFile p c).shared_scripts = c.shared_scripts ++ [p] ↔
      ¬ (lit "client" <:+: toLowerStr p ∨ lit "cl_" <:+: toLowerStr p ∨
        lit "server" <:+: toLowerStr p ∨ lit "sv_" <:+: toLowerStr p)) ∧
    ((categorizeFile openFile p c).shared_scripts = c.shared_scripts ∨
      (categorizeFile openFile p c).shared_scripts = c.shared_scripts ++ [p]) := by
  obtain ⟨hcases, -, -⟩ := categorizeFile_script_lists openFile p c h
  rcases hcases with ⟨m1, -, -, e⟩ | ⟨m1, m2, -, -, e⟩ | ⟨m1, m2, -, -, e⟩
  · rw [e]
    refine ⟨⟨fun hx => ?_, fun hx => ?_⟩, Or.inl rfl⟩
    · simp at hx
    · exact absurd (m1.elim Or.inl (fun x => Or.inr (Or.inl x))) hx
  · rw [e]
    refine ⟨⟨fun hx => ?_, fun hx => ?_⟩, Or.inl rfl⟩
    · simp at hx
    · exact absurd (m2.elim (fun x => Or.inr (Or.inr (Or.inl x)))
        (fun x => Or.inr (Or.inr (Or.inr x)))) hx
  · rw [e]
    refine ⟨⟨fun _ => ?_, fun _ => rfl⟩, Or.inr rfl⟩
    rintro (x | x | x | x)
    · exact m1 (Or.inl x)
    · exact m1 (Or.inr x)
    · exact m2 (Or.inl x)
    · exact m2 (Or.inr x)

/-- C3 at `utils.lua`: no marker, so it is a shared script. -/
theorem categorizeFile_shared_default_witness :
    lit ".lua" <:+ toLowerStr (lit "utils.lua") ∧
    (categorizeFile (fun _ => none) (lit "utils.lua") {}).shared_scripts = [lit "utils.lua"] :=
  ⟨by decide,
    ((categorizeFile_shared_default (fun _ => none) (lit "utils.lua") {} (by decide)).1).2
      (by decide)⟩

/-- C4: matching is done on the lowercased path and the original string is stored. For each
of the five path lists, `categorizeFile` on `p` and on the lowercased `p` append the same
number of elements (none or one), and what is appended for `p` is `p` itself. -/
theorem categorizeFile_case_insensitive (openFile openFile' : Str → Option Str) (p : Str)
    (c : FileCategories) :
    ∃ k₁ k₂ k₃ k₄ k₅ : Nat, (k₁ ≤ 1 ∧ k₂ ≤ 1 ∧ k₃ ≤ 1 ∧ k₄ ≤ 1 ∧ k₅ ≤ 1) ∧
      ((categorizeFile openFile p c).client_scripts = c.client_scripts ++ List.replicate k₁ p ∧
        (categorizeFile openFile p c).server_scripts = c.server_scripts ++ List.replicate k₂ p ∧
        (categorizeFile openFile p c).shared_scripts = c.shared_scripts ++ List.replicate k₃ p ∧
        (categorizeFile openFile p c).files = c.files ++ List.replicate k₄ p ∧
        (categorizeFile openFile p c).ui_pages = c.ui_pages ++ List.replicate k₅ p) ∧
      ((categorizeFile openFile' (toLowerStr p) c).client_scripts
          = c.client_scripts ++ List.replicate k₁ (toLowerStr p) ∧
        (categorizeFile openFile' (toLowerStr p) c).server_scripts
          = c.server_scripts ++ List.replicate k₂ (toLowerStr p) ∧
        (categorizeFile openFile' (toLowerStr p) c).shared_scripts
          = c.shared_scripts ++ List.replicate k₃ (toLowerStr p) ∧
        (categorizeFile openFile' (toLowerStr p) c).files
          = c.files ++ List.replicate k₄ (toLowerStr p) ∧
        (categorizeFile openFile' (toLowerStr p) c).ui_pages
          = c.ui_pages ++ List.replicate k₅ (toLowerStr p)) := by
  by_cases hl : lit ".lua" <:+ toLowerStr p
  · have hl' : lit ".lua" <:+ toLowerStr (toLowerStr p) := by rw [toLowerStr_idem]; exact hl
    rw [categorizeFile_lua openFile p c hl, categorizeFile_lua openFile' (toLowerStr p) c hl',
      toLowerStr_idem]
    by_cases h1 : lit "client" <:+: toLowerStr p ∨ lit "cl_" <:+: toLowerStr p
    · simp only [if_pos h1]
      obtain ⟨a1, a2, a3, a4, a5⟩ := dependencyScan_lists openFile p
        { c with client_scripts := c.client_scripts ++ [p] }
      obtain ⟨b1, b2, b3, b4, b5⟩ := dependencyScan_lists openFile' (toLowerStr p)
        { c with client_scripts := c.client_scripts ++ [toLowerStr p] }
      refine ⟨1, 0, 0, 0, 0, by omega, ?_, ?_⟩
      · rw [a1, a2, a3, a4, a5]; simp
      · rw [b1, b2, b3, b4, b5]; simp
    · by_cases h2 : lit "server" <:+: toLowerStr p ∨ lit "sv_" <:+: toLowerStr p
      · simp only [if_neg h1, if_pos h2]
        obtain ⟨a1, a2, a3, a4, a5⟩ := dependencyScan_lists openFile p
          { c with server_scripts := c.server_scripts ++ [p] }
        obtain ⟨b1, b2, b3, b4, b5⟩ := dependencyScan_lists openFile' (toLowerStr p)
          { c with server_scripts := c.server_scripts ++ [toLowerStr p] }
        refine ⟨0, 1, 0, 0, 0, by omega, ?_, ?_⟩
        · rw [a1, a2, a3, a4, a5]; simp
        · rw [b1, b2, b3, b4, b5]; simp
      · simp only [if_neg h1, if_neg h2]
        obtain ⟨a1, a2, a3, a4, a5⟩ := dependencyScan_lists openFile p
          { c with shared_scripts := c.shared_scripts ++ [p] }
        obtain ⟨b1, b2, b3, b4, b5⟩ := dependencyScan_lists openFile' (toLowerStr p)
          { c with shared_scripts := c.shared_scripts ++ [toLowerStr p] }
        refine ⟨0, 0, 1, 0, 0, by omega, ?_, ?_⟩
        · rw [a1, a2, a3, a4, a5]; simp
        · rw [b1, b2, b3, b4, b5]; simp
  · have hl' : ¬ lit ".lua" <:+ toLowerStr (toLowerStr p) := by rw [toLowerStr_idem]; exact hl
    rw [categorizeFile_not_lua openFile p c hl,
      categorizeFile_not_lua openFile' (toLowerStr p) c hl', toLowerStr_idem]
    by_cases h1 : lit ".html" <:+ toLowerStr p
    · simp only [if_pos h1]
      exact ⟨0, 0, 0, 1, 1, by omega, by simp, by simp⟩
    · by_cases h2 : ∃ ext ∈ assetExtensions, ext <:+ toLowerStr p
      · simp only [if_neg h1, if_pos h2]
        exact ⟨0, 0, 0, 1, 0, by omega, by simp, by simp⟩
      · simp only [if_neg h1, if_neg h2]
        exact ⟨0, 0, 0, 0, 0, by omega, by simp, by simp⟩

/-- C4 at `Client/Main.LUA`: a client script, stored with its capitals. -/
theorem client_main_lua_example :
    (categorizeFile (fun _ => none) (lit "Client/Main.LUA") {}).client_scripts
        = [lit "Client/Main.LUA"] ∧
    (categorizeFile (fun _ => none) (lit "client/main.lua") {}).client_scripts
        = [lit "client/main.lua"] := by
  decide

/-- C5: in every state reachable from the empty one, and so in every scan result, each path
of `ui_pages` is also in `files`; a path whose lowercased form ends in `.html` is appended to
both lists by the same call, and no other call appends to `ui_pages`. -/
theorem ui_pages_subset_files :
    (∀ c : FileCategories, Reachable c → ∀ q ∈ c.ui_pages, q ∈ c.files) ∧
    (∀ (getRelativePath : Str → Str) (openFile : Str → Option Str) (entries : List Str),
      ∀ q ∈ (scanDirectory getRelativePath openFile entries {}).ui_pages,
        q ∈ (scanDirectory getRelativePath openFile entries {}).files) ∧
    (∀ (openFile : Str → Option Str) (p : Str) (c : FileCategories),
      lit ".html" <:+ toLowerStr p →
        (categorizeFile openFile p c).ui_pages = c.ui_pages ++ [p] ∧
        (categorizeFile openFile p c).files = c.files ++ [p]) ∧
    (∀ (openFile : Str → Option Str) (p : Str) (c : FileCategories),
      ¬ lit ".html" <:+ toLowerStr p → (categorizeFile openFile p c).ui_pages = c.ui_pages) := by
  have inv : ∀ c : FileCategories, Reachable c → ∀ q ∈ c.ui_pages, q ∈ c.files := by
    intro c hc
    induction hc with
    | empty => intro q hq; simp at hq
    | step openFile p c _ ih => exact categorizeFile_ui_subset openFile p c ih
  refine ⟨inv, ?_, ?_, ?_⟩
  · intro getRelativePath openFile entries
    exact inv _ (scanDirectory_reachable getRelativePath openFile entries {} Reachable.empty)
  · intro openFile p c h
    rw [categorizeFile_not_lua openFile p c (html_not_lua _ h), if_pos h]
    exact ⟨rfl, rfl⟩
  · intro openFile p c h
    by_cases hl : lit ".lua" <:+ toLowerStr p
    · exact (categorizeFile_script_lists openFile p c hl).2.2
    · rw [categorizeFile_not_lua openFile p c hl, if_neg h]
      split_ifs <;> rfl

/-- C5 after the two calls for `html/ui.html` and `html/app.js`. -/
theorem ui_pages_subset_files_witness :
    lit ".html" <:+ toLowerStr (lit "html/ui.html") ∧
    (categorizeFile (fun _ => none) (lit "html/app.js")
      (categorizeFile (fun _ => none) (lit "html/ui.html") {})).ui_pages = [lit "html/ui.html"] ∧
    lit "html/ui.html" ∈ (categorizeFile (fun _ => none) (lit "html/app.js")
      (categorizeFile (fun _ => none) (lit "html/ui.html") {})).files :=
  ⟨by decide, by decide,
    ui_pages_subset_files.1 _
      (Reachable.step _ _ _ (Reachable.step _ _ _ Reachable.empty)) _ (by decide)⟩

/-- C6: a path whose lowercased form ends in none of the known extensions leaves the whole
state as it was; a path ending in one of the asset extensions is appended to `files` and
nothing else changes. -/
theorem categorizeFile_ignore_and_asset (openFile : Str → Option Str) (p : Str)
    (c : FileCategories) :
    ((¬ lit ".lua" <:+ toLowerStr p ∧ ¬ lit ".html" <:+ toLowerStr p ∧
        ∀ ext ∈ assetExtensions, ¬ ext <:+ toLowerStr p) →
      categorizeFile openFile p c = c) ∧
    ((∃ ext ∈ assetExtensions, ext <:+ toLowerStr p) →
      categorizeFile openFile p c = { c with files := c.files ++ [p] }) := by
  constructor
  · rintro ⟨h1, h2, h3⟩
    rw [categorizeFile_not_lua openFile p c h1, if_neg h2, if_neg]
    rintro ⟨ext, hmem, hsuf⟩
    exact h3 ext hmem hsuf
  · intro h
    rw [categorizeFile_not_lua openFile p c (asset_not_lua _ h), if_neg (asset_not_html _ h),
      if_pos h]

/-- C6 at `README.md` (ignored) and at `html/app.js` (an asset). -/
theorem categorizeFile_ignore_and_asset_witness :
    categorizeFile (fun _ => none) (lit "README.md") {} = {} ∧
    categorizeFile (fun _ => none) (lit "html/app.js") {} = { files := [lit "html/app.js"] } :=
  ⟨(categorizeFile_ignore_and_asset (fun _ => none) (lit "README.md") {}).1 (by decide),
    (categorizeFile_ignore_and_asset (fun _ => none) (lit "html/app.js") {}).2
      ⟨lit ".js", by decide, by decide⟩⟩

/-! ## Searching for one byte -/

theorem isPrefixOf_single (q c : Nat) (cs : Str) :
    List.isPrefixOf [q] (c :: cs) = true ↔ c = q := by
  rw [List.isPrefixOf_iff_prefix, List.cons_prefix_cons]
  exact ⟨fun h => h.1.symm, fun h => ⟨h.symm, List.nil_prefix⟩⟩

/-- `find` of a one-byte needle returns the first position that holds the byte. -/
theorem findFrom_single_first (q : Nat) (l : Str) (pos i : Nat) (hi : l[i]? = some q)
    (hfirst : ∀ k, k < i → l[k]? ≠ some q) : findFrom [q] l pos = some (pos + i) := by
  induction l generalizing pos i with
  | nil => simp at hi
  | cons c cs ih =>
    unfold findFrom
    cases i with
    | zero =>
      have hc : c = q := by simpa using hi
      rw [if_pos ((isPrefixOf_single q c cs).2 hc)]
      rfl
    | succ i =>
      have hc : ¬ c = q := by
        intro hc
        exact hfirst 0 (Nat.succ_pos i) (by simp [hc])
      rw [if_neg (fun h => hc ((isPrefixOf_single q c cs).1 h))]
      rw [ih (pos + 1) i (by simpa using hi)
        (fun k hk => by simpa using hfirst (k + 1) (Nat.succ_lt_succ hk))]
      congr 1
      omega

/-- A position returned by `find` of a one-byte needle holds that byte. -/
theorem findFrom_single_sound (q : Nat) (l : Str) (pos r : Nat)
    (h : findFrom [q] l pos = some r) : ∃ i, r = pos + i ∧ l[i]? = some q := by
  induction l generalizing pos with
  | nil => simp [findFrom] at h
  | cons c cs ih =>
    unfold findFrom at h
    by_cases hc : c = q
    · rw [if_pos ((isPrefixOf_single q c cs).2 hc)] at h
      exact ⟨0, by simpa using (Option.some.inj h).symm, by simp [hc]⟩
    · rw [if_neg (fun h => hc ((isPrefixOf_single q c cs).1 h))] at h
      obtain ⟨i, hr, hi⟩ := ih (pos + 1) h
      exact ⟨i + 1, by omega, by simpa using hi⟩

theorem rfindFrom_single_none (q : Nat) (l : Str) (pos : Nat)
    (h : ∀ k : Nat, l[k]? ≠ some q) : rfindFrom [q] l pos = none := by
  induction l generalizing pos with
  | nil => simp [rfindFrom]
  | cons c cs ih =>
    unfold rfindFrom
    have hrest : ∀ k : Nat, cs[k]? ≠ some q := fun k => by
      have := h (k + 1)
      simpa using this
    rw [ih (pos + 1) hrest]
    have hc : ¬ c = q := fun hc => h 0 (by simp [hc])
    simp only [if_neg (fun h => hc ((isPrefixOf_single q c cs).1 h))]

/-- `rfind` of a one-byte needle returns the last position that holds the byte. -/
theorem rfindFrom_single_last (q : Nat) (l : Str) (pos j : Nat) (hj : l[j]? = some q)
    (hlast : ∀ k, j < k → l[k]? ≠ some q) : rfindFrom [q] l pos = some (pos + j) := by
  induction l generalizing pos j with
  | nil => simp at hj
  | cons c cs ih =>
    unfold rfindFrom
    cases j with
    | zero =>
      have hc : c = q := by simpa using hj
      rw [rfindFrom_single_none q cs (pos + 1)
        (fun k => by simpa using hlast (k + 1) (Nat.succ_pos k))]
      simp only [if_pos ((isPrefixOf_single q c cs).2 hc)]
      rfl
    | succ j =>
      rw [ih (pos + 1) j (by simpa using hj)
        (fun k hk => by simpa using hlast (k + 1) (Nat.succ_lt_succ hk))]
      simp only [Option.some.injEq]
      omega

/-- A position returned by `rfind` of a one-byte needle holds that byte. -/
theorem rfindFrom_single_sound (q : Nat) (l : Str) (pos r : Nat)
    (h : rfindFrom [q] l pos = some r) : ∃ j, r = pos + j ∧ l[j]? = some q := by
  induction l generalizing pos r with
  | nil => simp [rfindFrom] at h
  | cons c cs ih =>
    unfold rfindFrom at h
    cases hrec : rfindFrom [q] cs (pos + 1) with
    | some later =>
      rw [hrec] at h
      obtain ⟨j, hr, hj⟩ := ih (pos + 1) later hrec
      have hl : later = r := by simpa using h
      exact ⟨j + 1, by omega, by simpa using hj⟩
    | none =>
      rw [hrec] at h
      by_cases hc : c = q
      · simp only [if_pos ((isPrefixOf_single q c cs).2 hc)] at h
        exact ⟨0, by simpa using (Option.some.inj h).symm, by simp [hc]⟩
      · simp only [if_neg (fun h => hc ((isPrefixOf_single q c cs).1 h))] at h
        exact absurd h (by simp)

theorem lit_quote : lit "'" = [39] := by decide

/-! ## The order of `std::string` and `std::set::insert` -/

theorem strLt_irrefl (a : Str) : strLt a a = false := by
  induction a with
  | nil => rfl
  | cons x xs ih => simp [strLt, ih]

theorem strLt_asymm (a b : Str) (h : strLt a b = true) : strLt b a = false := by
  induction a generalizing b with
  | nil => cases b <;> simp [strLt] at h ⊢
  | cons x xs ih =>
    cases b with
    | nil => simp [strLt] at h
    | cons y ys =>
      simp only [strLt] at h ⊢
      split_ifs at h ⊢ <;> first | rfl | omega | exact ih ys h

theorem strLt_trans (a b c : Str) (hab : strLt a b = true) (hbc : strLt b c = true) :
    strLt a c = true := by
  induction a generalizing b c with
  | nil =>
    cases b with
    | nil => simp [strLt] at hab
    | cons y ys =>
      cases c with
      | nil => simp [strLt] at hbc
      | cons z zs => rfl
  | cons x xs ih =>
    cases b with
    | nil => simp [strLt] at hab
    | cons y ys =>
      cases c with
      | nil => simp [strLt] at hbc
      | cons z zs =>
        simp only [strLt] at hab hbc ⊢
        split_ifs at hab hbc ⊢ <;> first | rfl | omega | exact ih ys zs hab hbc

/-- Two strings neither of which is smaller than the other are the same string. -/
theorem strLt_eq_of_not_lt (a b : Str) (hab : strLt a b = false) (hba : strLt b a = false) :
    a = b := by
  induction a generalizing b with
  | nil => cases b <;> simp [strLt] at hab ⊢
  | cons x xs ih =>
    cases b with
    | nil => simp [strLt] at hba
    | cons y ys =>
      simp only [strLt] at hab hba
      have hxy : x = y := by
        split_ifs at hab hba
        omega
      have hrest : xs = ys := by
        split_ifs at hab hba
        exact ih ys hab hba
      rw [hxy, hrest]

theorem mem_setInsert (x z : Str) (l : List Str) : z ∈ setInsert x l ↔ z = x ∨ z ∈ l := by
  induction l with
  | nil => simp [setInsert]
  | cons y ys ih =>
    unfold setInsert
    by_cases h1 : strLt x y = true
    · rw [if_pos h1]; simp
    · rw [if_neg h1]
      by_cases h2 : strLt y x = true
      · rw [if_pos h2, List.mem_cons, ih, List.mem_cons]
        tauto
      · rw [if_neg h2]
        have hxy : x = y :=
          strLt_eq_of_not_lt x y (Bool.eq_false_iff.2 h1) (Bool.eq_false_iff.2 h2)
        rw [hxy]
        simp

/-- `std::set::insert` keeps the elements strictly ascending. -/
theorem setInsert_sorted (x : Str) (l : List Str)
    (h : l.Pairwise (fun a b => strLt a b = true)) :
    (setInsert x l).Pairwise (fun a b => strLt a b = true) := by
  induction l with
  | nil => simp [setInsert]
  | cons y ys ih =>
    unfold setInsert
    rw [List.pairwise_cons] at h
    by_cases h1 : strLt x y = true
    · rw [if_pos h1]
      refine List.pairwise_cons.2 ⟨?_, List.pairwise_cons.2 h⟩
      intro z hz
      rcases List.mem_cons.1 hz with hz | hz
      · rw [hz]; exact h1
      · exact strLt_trans x y z h1 (h.1 z hz)
    · rw [if_neg h1]
      by_cases h2 : strLt y x = true
      · rw [if_pos h2]
        refine List.pairwise_cons.2 ⟨?_, ih h.2⟩
        intro z hz
        rcases (mem_setInsert x z ys).1 hz with hz | hz
        · rw [hz]; exact h2
        · exact h.1 z hz
      · rw [if_neg h2]
        exact List.pairwise_cons.2 h

/-! ## The loop body of the dependency scan -/

/-- The loop body when the first quote is at `i`, the last at `j`. -/
theorem processLine_of_quotes (deps : List Str) (line : Str) (i j : Nat)
    (hdep : lit "dependency" <:+: toLowerStr line)
    (hi : (toLowerStr line)[i]? = some 39)
    (hfirst : ∀ k, k < i → (toLowerStr line)[k]? ≠ some 39)
    (hj : (toLowerStr line)[j]? = some 39)
    (hlast : ∀ k, j < k → (toLowerStr line)[k]? ≠ some 39) :
    processLine deps line =
      if j > i then setInsert (((toLowerStr line).take j).drop (i + 1)) deps else deps := by
  unfold processLine
  have hf : find (toLowerStr line) (lit "'") = some i := by
    unfold find
    rw [lit_quote, findFrom_single_first 39 _ 0 i hi hfirst, Nat.zero_add]
  have hr : rfind (toLowerStr line) (lit "'") = some j := by
    unfold rfind
    rw [lit_quote, rfindFrom_single_last 39 _ 0 j hj hlast, Nat.zero_add]
  simp only [(contains_iff _ _).2 hdep, if_true, hf, hr]
  by_cases hij : j > i
  · rw [if_pos hij, if_pos hij]
    unfold substr
    rw [List.drop_take]
    congr 2
  · rw [if_neg hij, if_neg hij]

/-- What the loop body does in general: it keeps the set, or inserts one part of the
lowercased line, and then the first quote is strictly before the last. -/
theorem processLine_cases (deps : List Str) (line : Str) :
    processLine deps line = deps ∨
    ∃ i j, i < j ∧ (toLowerStr line)[i]? = some 39 ∧ (toLowerStr line)[j]? = some 39 ∧
      lit "dependency" <:+: toLowerStr line ∧
      processLine deps line = setInsert (((toLowerStr line).take j).drop (i + 1)) deps := by
  unfold processLine
  by_cases hdep : contains (toLowerStr line) (lit "dependency") = true
  · simp only [hdep, if_true]
    cases hf : find (toLowerStr line) (lit "'") with
    | none => exact Or.inl rfl
    | some i =>
      cases hr : rfind (toLowerStr line) (lit "'") with
      | none => exact Or.inl rfl
      | some j =>
        simp only
        by_cases hij : j > i
        · rw [if_pos hij]
          right
          unfold find at hf
          unfold rfind at hr
          rw [lit_quote] at hf hr
          obtain ⟨i', hi', hqi⟩ := findFrom_single_sound 39 _ 0 i hf
          obtain ⟨j', hj', hqj⟩ := rfindFrom_single_sound 39 _ 0 j hr
          have ei : i' = i := by omega
          have ej : j' = j := by omega
          subst ei ej
          refine ⟨i', j', hij, hqi, hqj, (contains_iff _ _).1 hdep, ?_⟩
          unfold substr
          rw [List.drop_take]
          congr 2
        · rw [if_neg hij]
          exact Or.inl rfl
  · simp only [hdep]
    exact Or.inl rfl

theorem tolower_eq_quote (b : Nat) : tolower b = 39 ↔ b = 39 := by
  unfold tolower
  split_ifs <;> omega

/-- Lowercasing moves no single quote: a position holds one after lowercasing exactly when
it held one before. -/
theorem getElem?_toLowerStr_quote (line : Str) (k : Nat) :
    (toLowerStr line)[k]? = some 39 ↔ (line)[k]? = some 39 := by
  unfold toLowerStr
  rw [List.getElem?_map]
  cases (line)[k]? with
  | none => simp
  | some b => simp [tolower_eq_quote]

/-- C7: for a line whose lowercased form contains `dependency` and whose first single quote
(position `i`) is strictly before its last one (position `j`), the loop body inserts the part
of the lowercased line strictly between the two quotes, and the set gains nothing else; a
line whose lowercased form does not contain `dependency` leaves the set as it was. -/
theorem processLine_extracts (deps : List Str) (line : Str) :
    (∀ i j : Nat, lit "dependency" <:+: toLowerStr line →
      (line)[i]? = some 39 → (∀ k, k < i → (line)[k]? ≠ some 39) →
      (line)[j]? = some 39 → (∀ k, j < k → (line)[k]? ≠ some 39) →
      i < j →
        processLine deps line = setInsert (((toLowerStr line).take j).drop (i + 1)) deps ∧
        ∀ x, x ∈ processLine deps line ↔
          x = ((toLowerStr line).take j).drop (i + 1) ∨ x ∈ deps) ∧
    (¬ lit "dependency" <:+: toLowerStr line → processLine deps line = deps) := by
  constructor
  · intro i j hdep hi hfirst hj hlast hij
    have h := processLine_of_quotes deps line i j hdep
      ((getElem?_toLowerStr_quote line i).2 hi)
      (fun k hk hq => hfirst k hk ((getElem?_toLowerStr_quote line k).1 hq))
      ((getElem?_toLowerStr_quote line j).2 hj)
      (fun k hk hq => hlast k hk ((getElem?_toLowerStr_quote line k).1 hq))
    rw [if_pos hij] at h
    refine ⟨h, fun x => ?_⟩
    rw [h]
    exact mem_setInsert _ x deps
  · intro hdep
    unfold processLine
    have hc : contains (toLowerStr line) (lit "dependency") = false := by
      rw [← Bool.not_eq_true, contains_iff]; exact hdep
    simp only [hc, Bool.false_eq_true, if_false]

/-- C7 at the line `Dependency 'OxMySQL'`: quotes at 11 and 19, `oxmysql` is inserted. -/
theorem processLine_extracts_witness :
    lit "dependency" <:+: toLowerStr (lit "Dependency 'OxMySQL'") ∧
    processLine [lit "abc"] (lit "Dependency 'OxMySQL'") = [lit "abc", lit "oxmysql"] ∧
    processLine [lit "abc"] (lit "local x = 'OxMySQL'") = [lit "abc"] := by
  refine ⟨by decide, ?_, ?_⟩
  · have h := ((processLine_extracts [lit "abc"] (lit "Dependency 'OxMySQL'")).1 11 19
      (by decide) (by decide) (by decide) (by decide) ?_ (by decide)).1
    · rw [h]; decide
    · intro k hk
      have hlen : (lit "Dependency 'OxMySQL'").length = 20 := by decide
      rw [List.getElem?_eq_none (by omega)]
      simp
  · exact (processLine_extracts [lit "abc"] (lit "local x = 'OxMySQL'")).2 (by decide)

/-- Lowercasing neither adds nor removes a single quote. -/
theorem count_quote_toLowerStr (s : Str) : (toLowerStr s).count 39 = s.count 39 := by
  unfold toLowerStr
  induction s with
  | nil => rfl
  | cons b bs ih =>
    rw [List.map_cons, List.count_cons, List.count_cons, ih]
    by_cases hb : b = 39
    · subst hb
      rfl
    · have hb' : ¬ tolower b = 39 := fun h => hb ((tolower_eq_quote b).1 h)
      simp [hb, hb']

/-- Two positions that hold the byte make its count at least two. -/
theorem two_le_count (q : Nat) (l : Str) (i j : Nat) (hij : i < j) (hi : l[i]? = some q)
    (hj : l[j]? = some q) : 2 ≤ l.count q := by
  induction l generalizing i j with
  | nil => simp at hi
  | cons c cs ih =>
    cases j with
    | zero => omega
    | succ j =>
      have hj' : cs[j]? = some q := by simpa using hj
      cases i with
      | zero =>
        have hc : c = q := by simpa using hi
        have hmem : q ∈ cs := List.getElem?_mem hj'
        have hpos : 0 < cs.count q := List.count_pos_iff.2 hmem
        rw [hc, List.count_cons_self]
        omega
      | succ i =>
        have hi' : cs[i]? = some q := by simpa using hi
        have := ih i j (by omega) hi' hj'
        have hle : cs.count q ≤ (c :: cs).count q := by
          rw [List.count_cons]; omega
        omega

/-- A line with fewer than two single quotes never changes the set. -/
theorem processLine_few_quotes (deps : List Str) (line : Str) (hq : line.count 39 < 2) :
    processLine deps line = deps := by
  rcases processLine_cases deps line with h | ⟨i, j, hij, hi, hj, -, -⟩
  · exact h
  · have := two_le_count 39 (toLowerStr line) i j hij hi hj
    rw [count_quote_toLowerStr] at this
    omega

/-- C8: a line that contains `dependency` in any letter case but has fewer than two single
quotes leaves the dependency set as it was, and the loop goes on: the lines after it are
processed as if the line were not there. -/
theorem processLine_malformed_skipped (line : Str)
    (_hdep : lit "dependency" <:+: toLowerStr line) (hq : line.count 39 < 2) :
    (∀ deps : List Str, processLine deps line = deps) ∧
    (∀ (deps : List Str) (before after : List Str),
      (before ++ line :: after).foldl processLine deps
        = (before ++ after).foldl processLine deps) := by
  refine ⟨fun deps => processLine_few_quotes deps line hq, ?_⟩
  intro deps before after
  rw [List.foldl_append, List.foldl_append, List.foldl_cons,
    processLine_few_quotes _ line hq]

/-- C8 at `dependency 'oxmysql` (one quote) between two well-formed lines. -/
theorem processLine_malformed_skipped_witness :
    lit "dependency" <:+: toLowerStr (lit "dependency 'oxmysql") ∧
    (lit "dependency 'oxmysql").count 39 < 2 ∧
    processLine [lit "a"] (lit "dependency 'oxmysql") = [lit "a"] ∧
    [lit "dependency 'b'", lit "dependency 'oxmysql", lit "dependency 'c'"].foldl
      processLine [] = [lit "b", lit "c"] := by
  have h := processLine_malformed_skipped (lit "dependency 'oxmysql") (by decide) (by decide)
  refine ⟨by decide, by decide, h.1 _, ?_⟩
  have h2 := h.2 [] [lit "dependency 'b'"] [lit "dependency 'c'"]
  rw [List.singleton_append] at h2
  rw [h2]
  decide

/-! ## Invariants of the dependency set -/

theorem tolower_not_upper (b : Nat) : ¬ (65 ≤ tolower b ∧ tolower b ≤ 90) := by
  unfold tolower
  split_ifs <;> omega

theorem processLine_allLower (deps : List Str) (line : Str) (h : AllLower deps) :
    AllLower (processLine deps line) := by
  rcases processLine_cases deps line with e | ⟨i, j, -, -, -, -, e⟩
  · rw [e]; exact h
  · rw [e]
    intro d hd b hb
    rcases (mem_setInsert _ d deps).1 hd with hd | hd
    · rw [hd] at hb
      have hb2 : b ∈ toLowerStr line := List.mem_of_mem_take (List.mem_of_mem_drop hb)
      unfold toLowerStr at hb2
      obtain ⟨b', -, rfl⟩ := List.mem_map.1 hb2
      exact tolower_not_upper b'
    · exact h d hd b hb

theorem foldl_processLine_allLower (lines : List Str) (deps : List Str) (h : AllLower deps) :
    AllLower (lines.foldl processLine deps) := by
  induction lines generalizing deps with
  | nil => exact h
  | cons l ls ih => exact ih _ (processLine_allLower deps l h)

theorem foldl_processLine_sorted (lines : List Str) (deps : List Str)
    (h : deps.Pairwise (fun a b => strLt a b = true)) :
    (lines.foldl processLine deps).Pairwise (fun a b => strLt a b = true) := by
  induction lines generalizing deps with
  | nil => exact h
  | cons l ls ih =>
    apply ih
    rcases processLine_cases deps l with e | ⟨i, j, -, -, -, -, e⟩
    · rw [e]; exact h
    · rw [e]; exact setInsert_sorted _ deps h

/-- One call of `categorizeFile` changes the dependency set only by running the loop body
over some lines. -/
theorem categorizeFile_dependencies (openFile : Str → Option Str) (p : Str)
    (c : FileCategories) :
    ∃ lines : List Str,
      (categorizeFile openFile p c).dependencies = lines.foldl processLine c.dependencies := by
  by_cases hl : lit ".lua" <:+ toLowerStr p
  · rw [categorizeFile_lua openFile p c hl]
    unfold dependencyScan
    cases openFile p with
    | none =>
      refine ⟨[], ?_⟩
      simp only [List.foldl_nil]
      split_ifs <;> rfl
    | some content =>
      refine ⟨getlines content, ?_⟩
      simp only
      split_ifs <;> rfl
  · rw [categorizeFile_not_lua openFile p c hl]
    refine ⟨[], ?_⟩
    simp only [List.foldl_nil]
    split_ifs <;> rfl

theorem reachable_allLower (c : FileCategories) (h : Reachable c) : AllLower c.dependencies := by
  induction h with
  | empty => intro d hd; simp at hd
  | step openFile p c _ ih =>
    obtain ⟨lines, e⟩ := categorizeFile_dependencies openFile p c
    rw [e]
    exact foldl_processLine_allLower lines _ ih

theorem reachable_sorted (c : FileCategories) (h : Reachable c) :
    c.dependencies.Pairwise (fun a b => strLt a b = true) := by
  induction h with
  | empty => exact List.Pairwise.nil
  | step openFile p c _ ih =>
    obtain ⟨lines, e⟩ := categorizeFile_dependencies openFile p c
    rw [e]
    exact foldl_processLine_sorted lines _ ih

/-- C9: every name in the dependency set of a reachable state, and so of a scan result,
is lowercase: it holds no byte of `A`..`Z`. The lines `dependency 'OxMySQL'` and
`dependency 'oxmysql'` both insert the one name `oxmysql`. -/
theorem dependencies_lowercase :
    (∀ c : FileCategories, Reachable c →
      ∀ d ∈ c.dependencies, ∀ b ∈ d, ¬ (65 ≤ b ∧ b ≤ 90)) ∧
    (∀ (getRelativePath : Str → Str) (openFile : Str → Option Str) (entries : List Str),
      ∀ d ∈ (scanDirectory getRelativePath openFile entries {}).dependencies,
        ∀ b ∈ d, ¬ (65 ≤ b ∧ b ≤ 90)) ∧
    (∀ deps : List Str,
      processLine deps (lit "dependency 'OxMySQL'") = setInsert (lit "oxmysql") deps ∧
      processLine deps (lit "dependency 'oxmysql'") = setInsert (lit "oxmysql") deps) := by
  refine ⟨reachable_allLower, ?_, ?_⟩
  · intro getRelativePath openFile entries
    exact reachable_allLower _
      (scanDirectory_reachable getRelativePath openFile entries {} Reachable.empty)
  · intro deps
    have hlast : ∀ (s : Str), s.length = 20 → ∀ k, 19 < k → s[k]? ≠ some 39 := by
      intro s hs k hk
      rw [List.getElem?_eq_none (by omega)]
      simp
    constructor
    · rw [processLine_of_quotes deps (lit "dependency 'OxMySQL'") 11 19 (by decide) (by decide)
        (by decide) (by decide) (hlast _ (by decide)), if_pos (by decide)]
      congr 1
    · rw [processLine_of_quotes deps (lit "dependency 'oxmysql'") 11 19 (by decide) (by decide)
        (by decide) (by decide) (hlast _ (by decide)), if_pos (by decide)]
      congr 1

/-- C9 on a scan of `/res`, with `a.lua` holding `dependency 'OxMySQL'` and `b.lua` holding
`dependency 'oxmysql'`: the set is the single lowercase name. -/
theorem dependencies_lowercase_witness :
    (scanDirectory (relativeTo (lit "/res"))
      (fun p => if p = lit "a.lua" then some (lit "dependency 'OxMySQL'\n")
        else some (lit "dependency 'oxmysql'\n"))
      [lit "/res/a.lua", lit "/res/b.lua"] {}).dependencies = [lit "oxmysql"] ∧
    ∀ b ∈ lit "oxmysql", ¬ (65 ≤ b ∧ b ≤ 90) := by
  refine ⟨by decide, ?_⟩
  exact dependencies_lowercase.2.1 (relativeTo (lit "/res"))
    (fun p => if p = lit "a.lua" then some (lit "dependency 'OxMySQL'\n")
        else some (lit "dependency 'oxmysql'\n"))
    [lit "/res/a.lua", lit "/res/b.lua"] (lit "oxmysql") (by decide)

/-! ## The rendered text, line by line -/

theorem renderBlock_eq_lines (opening : Str) (sorted : List Str) (closing : Str)
    (closingLines : List Str) (hc : closing = closingLines.flatMap (fun l => l ++ [10])) :
    renderBlock (opening ++ [10]) sorted closing
      = (blockLines opening sorted closingLines).flatMap (fun l => l ++ [10]) := by
  unfold renderBlock blockLines
  by_cases h : sorted ≠ []
  · rw [if_pos h, if_pos h, hc]
    simp only [List.flatMap_append, List.flatMap_cons, List.flatMap_nil, List.append_nil,
      List.flatMap_map]
    congr 2
    apply List.flatMap_congr
    intro s _
    have : lit "',\n" = lit "'," ++ [10] := by decide
    rw [this]
    simp only [List.append_assoc]
  · rw [if_neg h, if_neg h]
    rfl

/-- The text written is the written lines, each followed by `\n`. -/
theorem manifestText_eq_lines (folderName : Str) (c : FileCategories) :
    manifestText folderName c = (manifestLines folderName c).flatMap (fun l => l ++ [10]) := by
  unfold manifestText manifestLines
  simp only [List.flatMap_append]
  have e1 : lit "shared_scripts \x7b\n" = lit "shared_scripts \x7b" ++ [10] := by decide
  have e2 : lit "client_scripts \x7b\n" = lit "client_scripts \x7b" ++ [10] := by decide
  have e3 : lit "server_scripts \x7b\n" = lit "server_scripts \x7b" ++ [10] := by decide
  have e4 : lit "ui_page \x7b\n" = lit "ui_page \x7b" ++ [10] := by decide
  have e5 : lit "files \x7b\n" = lit "files \x7b" ++ [10] := by decide
  have c1 : lit "\x7d\n\n" = [lit "\x7d", []].flatMap (fun l => l ++ [10]) := by decide
  have c2 : lit "\x7d\n" = [lit "\x7d"].flatMap (fun l => l ++ [10]) := by decide
  rw [e1, e2, e3, e4, e5,
    renderBlock_eq_lines _ _ _ _ c1, renderBlock_eq_lines _ _ _ _ c1,
    renderBlock_eq_lines _ _ _ _ c1, renderBlock_eq_lines _ _ _ _ c1,
    renderBlock_eq_lines _ _ _ _ c2]
  have h1 : lit "fx_version 'cerulean'\n" = lit "fx_version 'cerulean'" ++ [10] := by decide
  have h2 : lit "game 'gta5'\n\n" = lit "game 'gta5'" ++ [10] ++ [10] := by decide
  have h3 : lit "author 'Auto-Generated'\n" = lit "author 'Auto-Generated'" ++ [10] := by
    decide
  have h4 : lit "'\n" = lit "'" ++ [10] := by decide
  have h5 : lit "version '1.0.0'\n\n" = lit "version '1.0.0'" ++ [10] ++ [10] := by decide
  have hdeps :
      (if c.dependencies ≠ [] then
        c.dependencies.flatMap (fun dep => lit "dependency '" ++ dep ++ lit "'\n") ++ lit "\n"
       else [])
      = (if c.dependencies ≠ [] then
          c.dependencies.map (fun dep => lit "dependency '" ++ dep ++ lit "'") ++ [[]]
         else []).flatMap (fun l => l ++ [10]) := by
    by_cases hd : c.dependencies ≠ []
    · rw [if_pos hd, if_pos hd, h4]
      simp only [List.flatMap_append, List.flatMap_cons, List.flatMap_nil, List.append_nil,
        List.flatMap_map, List.nil_append, List.append_assoc]
      rfl
    · rw [if_neg hd, if_neg hd]
      rfl
  rw [hdeps, h1, h2, h3, h4, h5]
  simp only [List.flatMap_cons, List.flatMap_nil, List.append_assoc, List.nil_append,
    List.append_nil]

/-! ## The dependency lines of the manifest -/

/-- What a line inserts does not depend on the set it is inserted into: either the line
inserts nothing, or it inserts the one name it inserts into the empty set. -/
theorem processLine_nil_cases (line : Str) :
    (processLine [] line = [] ∧ ∀ deps, processLine deps line = deps) ∨
    ∃ name, processLine [] line = [name] ∧ ∀ deps, processLine deps line = setInsert name deps := by
  unfold processLine
  by_cases hdep : contains (toLowerStr line) (lit "dependency") = true
  · simp only [hdep, if_true]
    cases find (toLowerStr line) (lit "'") with
    | none => exact Or.inl ⟨rfl, fun _ => rfl⟩
    | some i =>
      cases rfind (toLowerStr line) (lit "'") with
      | none => exact Or.inl ⟨rfl, fun _ => rfl⟩
      | some j =>
        simp only
        by_cases hij : j > i
        · simp only [if_pos hij]
          exact Or.inr ⟨_, rfl, fun _ => rfl⟩
        · refine Or.inl ⟨?_, fun deps => ?_⟩ <;> simp [hij]
  · refine Or.inl ⟨?_, fun deps => ?_⟩ <;> simp [hdep]

/-- The names in the set after a run of the loop: the names that were there and the names
the lines insert. -/
theorem mem_foldl_processLine (lines : List Str) (deps : List Str) (name : Str) :
    name ∈ lines.foldl processLine deps ↔
      name ∈ deps ∨ ∃ line ∈ lines, processLine [] line = [name] := by
  induction lines generalizing deps with
  | nil => simp
  | cons l ls ih =>
    rw [List.foldl_cons, ih]
    rcases processLine_nil_cases l with ⟨h0, hall⟩ | ⟨n, h0, hall⟩
    · rw [hall]
      constructor
      · rintro (h | ⟨line, hl, he⟩)
        · exact Or.inl h
        · exact Or.inr ⟨line, List.mem_cons_of_mem _ hl, he⟩
      · rintro (h | ⟨line, hl, he⟩)
        · exact Or.inl h
        · rcases List.mem_cons.1 hl with hl | hl
          · rw [hl, h0] at he
            exact absurd he (by simp)
          · exact Or.inr ⟨line, hl, he⟩
    · rw [hall, mem_setInsert]
      constructor
      · rintro ((h | h) | ⟨line, hl, he⟩)
        · exact Or.inr ⟨l, List.mem_cons_self _ _, by rw [h0, h]⟩
        · exact Or.inl h
        · exact Or.inr ⟨line, List.mem_cons_of_mem _ hl, he⟩
      · rintro (h | ⟨line, hl, he⟩)
        · exact Or.inl (Or.inr h)
        · rcases List.mem_cons.1 hl with hl | hl
          · rw [hl, h0] at he
            have : n = name := by simpa using he
            exact Or.inl (Or.inl this.symm)
          · exact Or.inr ⟨line, hl, he⟩

/-- The dependency set of a scan is the loop body folded over the scanned lines. -/
theorem scanDirectory_dependencies (getRelativePath : Str → Str)
    (openFile : Str → Option Str) (entries : List Str) (c : FileCategories) :
    (scanDirectory getRelativePath openFile entries c).dependencies
      = (scannedLines getRelativePath openFile entries).foldl processLine c.dependencies := by
  unfold scanDirectory scannedLines
  induction entries generalizing c with
  | nil => rfl
  | cons e es ih =>
    rw [List.foldl_cons, List.flatMap_cons, List.foldl_append, ih]
    congr 1
    dsimp only
    by_cases hm : toLowerStr (filename e) = lit "fxmanifest.lua" ∨
        toLowerStr (filename e) = lit "__resource.lua"
    · rw [if_pos hm, if_pos hm]
      rfl
    · rw [if_neg hm, if_neg hm]
      by_cases hl : lit ".lua" <:+ toLowerStr (getRelativePath e)
      · rw [if_pos ((endsWith_iff _ _).2 hl),
          categorizeFile_lua openFile (getRelativePath e) c hl]
        unfold dependencyScan
        cases openFile (getRelativePath e) with
        | none =>
          simp only [List.foldl_nil]
          split_ifs <;> rfl
        | some content =>
          simp only
          split_ifs <;> rfl
      · have hl' : ¬ endsWith (toLowerStr (getRelativePath e)) (lit ".lua") = true := by
          rw [endsWith_iff]; exact hl
        rw [if_neg hl', categorizeFile_not_lua openFile (getRelativePath e) c hl]
        simp only [List.foldl_nil]
        split_ifs <;> rfl

theorem isDependencyLine_dependency (name : Str) :
    isDependencyLine (lit "dependency '" ++ name ++ lit "'") = true := by
  unfold isDependencyLine
  rw [List.isPrefixOf_iff_prefix, List.append_assoc]
  exact List.prefix_append _ _

theorem filter_isDependencyLine_block (opening : Str) (sorted : List Str)
    (closing : List Str) (ho : isDependencyLine opening = false)
    (hc : ∀ l ∈ closing, isDependencyLine l = false) :
    (blockLines opening sorted closing).filter isDependencyLine = [] := by
  unfold blockLines
  rw [List.filter_eq_nil_iff]
  intro l hl
  split_ifs at hl with h
  · rw [List.mem_append, List.mem_append, List.mem_singleton, List.mem_map] at hl
    rcases hl with (hl | ⟨s, -, hl⟩) | hl
    · rw [hl, ho]; simp
    · rw [← hl]
      have : isDependencyLine (lit "    '" ++ s ++ lit "',") = false := rfl
      rw [this]; simp
    · rw [hc l hl]; simp
  · simp at hl

/-- The lines of the manifest that start with `dependency '` are the lines of the
dependency loop, one per element of the set, in the order of the set. -/
theorem filter_isDependencyLine_manifest (folderName : Str) (c : FileCategories) :
    (manifestLines folderName c).filter isDependencyLine
      = c.dependencies.map (fun dep => lit "dependency '" ++ dep ++ lit "'") := by
  unfold manifestLines
  simp only [List.filter_append]
  rw [filter_isDependencyLine_block _ _ _ (by decide) (by decide),
    filter_isDependencyLine_block _ _ _ (by decide) (by decide),
    filter_isDependencyLine_block _ _ _ (by decide) (by decide),
    filter_isDependencyLine_block _ _ _ (by decide) (by decide),
    filter_isDependencyLine_block _ _ _ (by decide) (by decide)]
  have hhead : List.filter isDependencyLine
      [lit "fx_version 'cerulean'", lit "game 'gta5'", [], lit "author 'Auto-Generated'",
        lit "description '" ++ folderName ++ lit "'", lit "version '1.0.0'", []] = [] := by
    rw [List.filter_eq_nil_iff]
    intro l hl
    simp only [List.mem_cons, List.mem_singleton, List.not_mem_nil, or_false] at hl
    have hdesc : isDependencyLine (lit "description '" ++ folderName ++ lit "'") = false := rfl
    rcases hl with h | h | h | h | h | h | h <;> rw [h] <;>
      first
      | decide
      | (rw [hdesc]; exact Bool.false_ne_true)
  rw [hhead]
  simp only [List.nil_append, List.append_nil]
  by_cases hd : c.dependencies ≠ []
  · rw [if_pos hd, List.filter_append]
    have h1 : List.filter isDependencyLine [([] : Str)] = [] := by decide
    rw [h1, List.append_nil, List.filter_eq_self]
    intro l hl
    obtain ⟨d, -, rfl⟩ := List.mem_map.1 hl
    exact isDependencyLine_dependency d
  · rw [if_neg hd]
    have : c.dependencies = [] := by simpa using hd
    rw [this]
    rfl

theorem dependencyLine_injective :
    Function.Injective (fun dep : Str => lit "dependency '" ++ dep ++ lit "'") := by
  intro a b h
  simp only [List.append_assoc] at h
  exact List.append_cancel_right (List.append_cancel_left h)

theorem sorted_nodup (deps : List Str) (h : deps.Pairwise (fun a b => strLt a b = true)) :
    deps.Nodup := by
  refine List.Pairwise.imp ?_ h
  intro a b hab heq
  rw [heq, strLt_irrefl] at hab
  exact Bool.false_ne_true hab

/-- Counting with the equality test of lists and counting with decidable equality agree. -/
theorem count_decEq (x : Str) (l : List Str) :
    @List.count Str instBEqOfDecidableEq x l = List.count x l := by
  unfold List.count
  congr 1
  funext y
  show decide (y = x) = (y == x)
  by_cases h : y = x
  · rw [decide_eq_true h]
    exact (beq_iff_eq.2 h).symm
  · rw [decide_eq_false h]
    exact (Bool.eq_false_iff.2 (fun hb => h (beq_iff_eq.1 hb))).symm

/-- How often the line `dependency '<name>'` is written: as often as the name is in the
set. -/
theorem count_dependencyLine (folderName : Str) (c : FileCategories) (name : Str) :
    (manifestLines folderName c).count (lit "dependency '" ++ name ++ lit "'")
      = c.dependencies.count name := by
  rw [← List.count_filter (isDependencyLine_dependency name),
    filter_isDependencyLine_manifest]
  rw [← count_decEq, ← count_decEq]
  exact List.count_map_of_injective c.dependencies _ dependencyLine_injective name

/-- C10: in the manifest rendered from a scan, the line `dependency '<name>'` is written
exactly once for every name some scanned line inserts, however many lines of however many
files insert it, and never for another name; the lines that start with `dependency '` are
the lines of the set's elements in the order of the set, which is strictly ascending. -/
theorem manifest_dependency_lines (getRelativePath : Str → Str)
    (openFile : Str → Option Str) (entries : List Str) (folderName : Str) :
    (∀ name : Str,
      (∃ line ∈ scannedLines getRelativePath openFile entries, processLine [] line = [name]) →
      (manifestLines folderName (scanDirectory getRelativePath openFile entries {})).count
        (lit "dependency '" ++ name ++ lit "'") = 1) ∧
    (∀ name : Str,
      (¬ ∃ line ∈ scannedLines getRelativePath openFile entries, processLine [] line = [name]) →
      (manifestLines folderName (scanDirectory getRelativePath openFile entries {})).count
        (lit "dependency '" ++ name ++ lit "'") = 0) ∧
    (manifestLines folderName (scanDirectory getRelativePath openFile entries {})).filter
        isDependencyLine
      = (scanDirectory getRelativePath openFile entries {}).dependencies.map
          (fun dep => lit "dependency '" ++ dep ++ lit "'") ∧
    (scanDirectory getRelativePath openFile entries {}).dependencies.Pairwise
      (fun a b => strLt a b = true) ∧
    manifestText folderName (scanDirectory getRelativePath openFile entries {})
      = (manifestLines folderName (scanDirectory getRelativePath openFile entries {})).flatMap
          (fun l => l ++ [10]) := by
  have hsorted : (scanDirectory getRelativePath openFile entries {}).dependencies.Pairwise
      (fun a b => strLt a b = true) :=
    reachable_sorted _ (scanDirectory_reachable getRelativePath openFile entries {} Reachable.empty)
  have hmem : ∀ name : Str,
      name ∈ (scanDirectory getRelativePath openFile entries {}).dependencies ↔
      ∃ line ∈ scannedLines getRelativePath openFile entries, processLine [] line = [name] := by
    intro name
    rw [scanDirectory_dependencies, mem_foldl_processLine]
    simp
  refine ⟨fun name h => ?_, fun name h => ?_, filter_isDependencyLine_manifest _ _, hsorted,
    manifestText_eq_lines _ _⟩
  · rw [count_dependencyLine, ← count_decEq]
    exact List.count_eq_one_of_mem (sorted_nodup _ hsorted) ((hmem name).2 h)
  · rw [count_dependencyLine]
    exact List.count_eq_zero_of_not_mem (fun hin => h ((hmem name).1 hin))

/-- C10 on a scan of `/res` with two files that each hold `dependency 'oxmysql'`: one
line. -/
theorem manifest_dependency_lines_witness :
    (manifestLines (lit "res")
      (scanDirectory (relativeTo (lit "/res")) (fun _ => some (lit "dependency 'oxmysql'\n"))
        [lit "/res/client/a.lua", lit "/res/server/b.lua"] {})).count
          (lit "dependency 'oxmysql'") = 1 ∧
    scannedLines (relativeTo (lit "/res")) (fun _ => some (lit "dependency 'oxmysql'\n"))
        [lit "/res/client/a.lua", lit "/res/server/b.lua"]
      = [lit "dependency 'oxmysql'", lit "dependency 'oxmysql'"] :=
  ⟨(manifest_dependency_lines (relativeTo (lit "/res"))
      (fun _ => some (lit "dependency 'oxmysql'\n"))
      [lit "/res/client/a.lua", lit "/res/server/b.lua"] (lit "res")).1 (lit "oxmysql")
      ⟨lit "dependency 'oxmysql'", by decide, by decide⟩,
    by decide⟩

/-! ## scanDirectory: which file is read (C11) -/

/-- C11, failing input: the resource `/res` holds `server/sv_init.lua` with the line
`dependency 'oxmysql'`. `categorizeFile` opens the relative path, so the file is found only
when the process runs in `/res`; run from `/home` the scan has no dependency at all, and
when `/home/server/sv_init.lua` exists its lines are read instead. -/
theorem scan_reads_path_relative_to_cwd :
    (scanDirectory (relativeTo (lit "/res"))
      (openFrom (fun p => if p = lit "/res/server/sv_init.lua"
        then some (lit "dependency 'oxmysql'\n") else none) (lit "/home"))
      [lit "/res/server/sv_init.lua"] {}).dependencies = [] ∧
    (scanDirectory (relativeTo (lit "/res"))
      (openFrom (fun p => if p = lit "/res/server/sv_init.lua"
        then some (lit "dependency 'oxmysql'\n") else none) (lit "/home"))
      [lit "/res/server/sv_init.lua"] {}).server_scripts = [lit "server/sv_init.lua"] ∧
    (scanDirectory (relativeTo (lit "/res"))
      (openFrom (fun p => if p = lit "/res/server/sv_init.lua"
        then some (lit "dependency 'oxmysql'\n") else none) (lit "/res"))
      [lit "/res/server/sv_init.lua"] {}).dependencies = [lit "oxmysql"] ∧
    (scanDirectory (relativeTo (lit "/res"))
      (openFrom (fun p => if p = lit "/res/server/sv_init.lua"
        then some (lit "dependency 'oxmysql'\n")
        else if p = lit "/home/server/sv_init.lua"
        then some (lit "dependency 'other'\n") else none) (lit "/home"))
      [lit "/res/server/sv_init.lua"] {}).dependencies = [lit "other"] := by
  decide

/-! ## scanDirectory: entries one by one (C12, C13) -/

theorem scanDirectory_nil (getRelativePath : Str → Str) (openFile : Str → Option Str)
    (c : FileCategories) : scanDirectory getRelativePath openFile [] c = c := rfl

theorem scanDirectory_cons (getRelativePath : Str → Str) (openFile : Str → Option Str)
    (e : Str) (es : List Str) (c : FileCategories) :
    scanDirectory getRelativePath openFile (e :: es) c
      = scanDirectory getRelativePath openFile es
          (scanDirectory getRelativePath openFile [e] c) :=
  rfl

theorem scanDirectory_append (getRelativePath : Str → Str) (openFile : Str → Option Str)
    (es₁ es₂ : List Str) (c : FileCategories) :
    scanDirectory getRelativePath openFile (es₁ ++ es₂) c
      = scanDirectory getRelativePath openFile es₂
          (scanDirectory getRelativePath openFile es₁ c) := by
  unfold scanDirectory
  rw [List.foldl_append]

/-- An entry whose own name is reserved is passed over. -/
theorem scanDirectory_reserved (getRelativePath : Str → Str) (openFile : Str → Option Str)
    (e : Str) (c : FileCategories)
    (h : toLowerStr (filename e) = lit "fxmanifest.lua" ∨
      toLowerStr (filename e) = lit "__resource.lua") :
    scanDirectory getRelativePath openFile [e] c = c := by
  unfold scanDirectory
  rw [List.foldl_cons, List.foldl_nil]
  dsimp only
  rw [if_pos h]

/-- For an entry with another name, its relative path goes to `categorizeFile`. -/
theorem scanDirectory_accepted (getRelativePath : Str → Str) (openFile : Str → Option Str)
    (e : Str) (c : FileCategories)
    (h : ¬ (toLowerStr (filename e) = lit "fxmanifest.lua" ∨
      toLowerStr (filename e) = lit "__resource.lua")) :
    scanDirectory getRelativePath openFile [e] c
      = categorizeFile openFile (getRelativePath e) c := by
  unfold scanDirectory
  rw [List.foldl_cons, List.foldl_nil]
  dsimp only
  rw [if_neg h]

/-- The path lists after one call: the lists before, followed by what the call appends, and
what it appends depends on the path alone. -/
theorem categorizeFile_lists_append (openFile : Str → Option Str) (p : Str)
    (c : FileCategories) :
    (categorizeFile openFile p c).client_scripts
        = c.client_scripts ++ (categorizeFile (fun _ => none) p {}).client_scripts ∧
    (categorizeFile openFile p c).server_scripts
        = c.server_scripts ++ (categorizeFile (fun _ => none) p {}).server_scripts ∧
    (categorizeFile openFile p c).shared_scripts
        = c.shared_scripts ++ (categorizeFile (fun _ => none) p {}).shared_scripts ∧
    (categorizeFile openFile p c).files
        = c.files ++ (categorizeFile (fun _ => none) p {}).files ∧
    (categorizeFile openFile p c).ui_pages
        = c.ui_pages ++ (categorizeFile (fun _ => none) p {}).ui_pages := by
  by_cases hl : lit ".lua" <:+ toLowerStr p
  · obtain ⟨hc, h4, h5⟩ := categorizeFile_script_lists openFile p c hl
    obtain ⟨hc0, h40, h50⟩ := categorizeFile_script_lists (fun _ => none) p {} hl
    rw [h4, h5, h40, h50]
    rcases hc with ⟨m1, e1, e2, e3⟩ | ⟨m1, m2, e1, e2, e3⟩ | ⟨m1, m2, e1, e2, e3⟩ <;>
      rcases hc0 with ⟨n1, f1, f2, f3⟩ | ⟨n1, n2, f1, f2, f3⟩ | ⟨n1, n2, f1, f2, f3⟩ <;>
      first
      | exact absurd m1 n1
      | exact absurd n1 m1
      | exact absurd m2 n2
      | exact absurd n2 m2
      | (rw [e1, e2, e3, f1, f2, f3]; simp)
  · rw [categorizeFile_not_lua openFile p c hl, categorizeFile_not_lua (fun _ => none) p {} hl]
    split_ifs <;> simp

/-- The path lists after the scan of one entry, in the same form. -/
theorem scanDirectory_single_lists (getRelativePath : Str → Str)
    (openFile : Str → Option Str) (e : Str) (c : FileCategories) :
    (scanDirectory getRelativePath openFile [e] c).client_scripts
        = c.client_scripts ++ (entryAlone getRelativePath e).client_scripts ∧
    (scanDirectory getRelativePath openFile [e] c).server_scripts
        = c.server_scripts ++ (entryAlone getRelativePath e).server_scripts ∧
    (scanDirectory getRelativePath openFile [e] c).shared_scripts
        = c.shared_scripts ++ (entryAlone getRelativePath e).shared_scripts ∧
    (scanDirectory getRelativePath openFile [e] c).files
        = c.files ++ (entryAlone getRelativePath e).files ∧
    (scanDirectory getRelativePath openFile [e] c).ui_pages
        = c.ui_pages ++ (entryAlone getRelativePath e).ui_pages := by
  unfold entryAlone
  by_cases h : toLowerStr (filename e) = lit "fxmanifest.lua" ∨
      toLowerStr (filename e) = lit "__resource.lua"
  · rw [scanDirectory_reserved getRelativePath openFile e c h,
      scanDirectory_reserved getRelativePath _ e {} h]
    simp
  · rw [scanDirectory_accepted getRelativePath openFile e c h,
      scanDirectory_accepted getRelativePath _ e {} h]
    exact categorizeFile_lists_append openFile (getRelativePath e) c

/-- The path lists after a scan: the lists before, followed by what each entry contributes,
in the order of the entries. -/
theorem scanDirectory_lists (getRelativePath : Str → Str) (openFile : Str → Option Str)
    (es : List Str) (c : FileCategories) :
    (scanDirectory getRelativePath openFile es c).client_scripts
        = c.client_scripts
          ++ es.flatMap (fun e => (entryAlone getRelativePath e).client_scripts) ∧
    (scanDirectory getRelativePath openFile es c).server_scripts
        = c.server_scripts
          ++ es.flatMap (fun e => (entryAlone getRelativePath e).server_scripts) ∧
    (scanDirectory getRelativePath openFile es c).shared_scripts
        = c.shared_scripts
          ++ es.flatMap (fun e => (entryAlone getRelativePath e).shared_scripts) ∧
    (scanDirectory getRelativePath openFile es c).files
        = c.files ++ es.flatMap (fun e => (entryAlone getRelativePath e).files) ∧
    (scanDirectory getRelativePath openFile es c).ui_pages
        = c.ui_pages ++ es.flatMap (fun e => (entryAlone getRelativePath e).ui_pages) := by
  induction es generalizing c with
  | nil => simp [scanDirectory_nil]
  | cons e es ih =>
    rw [scanDirectory_cons]
    obtain ⟨a1, a2, a3, a4, a5⟩ := ih (scanDirectory getRelativePath openFile [e] c)
    obtain ⟨b1, b2, b3, b4, b5⟩ := scanDirectory_single_lists getRelativePath openFile e c
    rw [a1, a2, a3, a4, a5, b1, b2, b3, b4, b5]
    simp [List.flatMap_cons, List.append_assoc]

/-- One call appends nothing but its own path. -/
theorem mem_categorizeFile_alone (p q : Str)
    (hq : q ∈ (categorizeFile (fun _ => none) p {}).client_scripts ∨
      q ∈ (categorizeFile (fun _ => none) p {}).server_scripts ∨
      q ∈ (categorizeFile (fun _ => none) p {}).shared_scripts ∨
      q ∈ (categorizeFile (fun _ => none) p {}).files ∨
      q ∈ (categorizeFile (fun _ => none) p {}).ui_pages) : q = p := by
  by_cases hl : lit ".lua" <:+ toLowerStr p
  · obtain ⟨hc, h4, h5⟩ := categorizeFile_script_lists (fun _ => none) p {} hl
    rw [h4, h5] at hq
    rcases hc with ⟨-, e1, e2, e3⟩ | ⟨-, -, e1, e2, e3⟩ | ⟨-, -, e1, e2, e3⟩ <;>
      (rw [e1, e2, e3] at hq; simpa using hq)
  · rw [categorizeFile_not_lua (fun _ => none) p {} hl] at hq
    split_ifs at hq <;>
      first
      | (simp at hq; done)
      | simpa using hq

/-- Whatever one entry contributes to a path list is the relative path of the entry, and
the entry's own name is not reserved. -/
theorem mem_entryAlone (getRelativePath : Str → Str) (e q : Str)
    (hq : q ∈ (entryAlone getRelativePath e).client_scripts ∨
      q ∈ (entryAlone getRelativePath e).server_scripts ∨
      q ∈ (entryAlone getRelativePath e).shared_scripts ∨
      q ∈ (entryAlone getRelativePath e).files ∨
      q ∈ (entryAlone getRelativePath e).ui_pages) :
    q = getRelativePath e ∧ ¬ (toLowerStr (filename e) = lit "fxmanifest.lua" ∨
      toLowerStr (filename e) = lit "__resource.lua") := by
  unfold entryAlone at hq
  by_cases h : toLowerStr (filename e) = lit "fxmanifest.lua" ∨
      toLowerStr (filename e) = lit "__resource.lua"
  · rw [scanDirectory_reserved getRelativePath _ e {} h] at hq
    simp at hq
  · refine ⟨?_, h⟩
    rw [scanDirectory_accepted getRelativePath _ e {} h] at hq
    exact mem_categorizeFile_alone (getRelativePath e) q hq

/-- Every path in a list of a scan result is the relative path of an entry whose own name
is not reserved. -/
theorem mem_scanDirectory_lists (getRelativePath : Str → Str) (openFile : Str → Option Str)
    (entries : List Str) (q : Str)
    (hq : q ∈ (scanDirectory getRelativePath openFile entries {}).client_scripts ∨
      q ∈ (scanDirectory getRelativePath openFile entries {}).server_scripts ∨
      q ∈ (scanDirectory getRelativePath openFile entries {}).shared_scripts ∨
      q ∈ (scanDirectory getRelativePath openFile entries {}).files ∨
      q ∈ (scanDirectory getRelativePath openFile entries {}).ui_pages) :
    ∃ e ∈ entries, q = getRelativePath e ∧
      ¬ (toLowerStr (filename e) = lit "fxmanifest.lua" ∨
        toLowerStr (filename e) = lit "__resource.lua") := by
  obtain ⟨a1, a2, a3, a4, a5⟩ := scanDirectory_lists getRelativePath openFile entries {}
  rw [a1, a2, a3, a4, a5] at hq
  simp only [List.nil_append, List.mem_flatMap] at hq
  rcases hq with ⟨e, he, hx⟩ | ⟨e, he, hx⟩ | ⟨e, he, hx⟩ | ⟨e, he, hx⟩ | ⟨e, he, hx⟩
  · exact ⟨e, he, mem_entryAlone getRelativePath e q (Or.inl hx)⟩
  · exact ⟨e, he, mem_entryAlone getRelativePath e q (Or.inr (Or.inl hx))⟩
  · exact ⟨e, he, mem_entryAlone getRelativePath e q (Or.inr (Or.inr (Or.inl hx)))⟩
  · exact ⟨e, he, mem_entryAlone getRelativePath e q (Or.inr (Or.inr (Or.inr (Or.inl hx))))⟩
  · exact ⟨e, he, mem_entryAlone getRelativePath e q (Or.inr (Or.inr (Or.inr (Or.inr hx))))⟩

/-- C12, as stated, fails: `/res` holds `fxmanifest.lua` with the line `dependency 'x'` and
a symbolic link `link.lua` to it. The entry `fxmanifest.lua` is skipped; the entry
`link.lua` has another name and is accepted, and its relative path is the resolved one,
`fxmanifest.lua`. Scanned from inside `/res`, the manifest file is in `shared_scripts` and
its dependency is in the set. -/
theorem reserved_manifest_listed_through_link :
    toLowerStr (filename (lit "fxmanifest.lua")) = lit "fxmanifest.lua" ∧
    scanDirectory
        (fun p => if p = lit "/res/link.lua" then lit "fxmanifest.lua"
          else relativeTo (lit "/res") p)
        (fun p => if p = lit "fxmanifest.lua" then some (lit "dependency 'x'\n") else none)
        [lit "/res/fxmanifest.lua", lit "/res/link.lua"] {}
      = { shared_scripts := [lit "fxmanifest.lua"], dependencies := [lit "x"] } ∧
    lit "fxmanifest.lua" ∈ (scanDirectory
        (fun p => if p = lit "/res/link.lua" then lit "fxmanifest.lua"
          else relativeTo (lit "/res") p)
        (fun p => if p = lit "fxmanifest.lua" then some (lit "dependency 'x'\n") else none)
        [lit "/res/fxmanifest.lua", lit "/res/link.lua"] {}).shared_scripts := by
  decide

/-- C12, amended: an entry whose own name lowercases to `fxmanifest.lua` or
`__resource.lua` is skipped: the scan with it is the scan without it, whatever the file
holds and whatever its relative path. Every path in the five lists of a scan result is the
relative path of an entry whose own name is not reserved; so when the relative path of each
entry ends in the entry's own name, no path with a reserved name is in any list. A tree with
only such an entry scans to the empty `FileCategories`. -/
theorem reserved_manifest_skipped (getRelativePath : Str → Str)
    (openFile : Str → Option Str) (e : Str)
    (h : toLowerStr (filename e) = lit "fxmanifest.lua" ∨
      toLowerStr (filename e) = lit "__resource.lua") :
    (∀ (before after : List Str) (c : FileCategories),
      scanDirectory getRelativePath openFile (before ++ e :: after) c
        = scanDirectory getRelativePath openFile (before ++ after) c) ∧
    (∀ (entries : List Str) (q : Str),
      q ∈ (scanDirectory getRelativePath openFile entries {}).client_scripts ∨
        q ∈ (scanDirectory getRelativePath openFile entries {}).server_scripts ∨
        q ∈ (scanDirectory getRelativePath openFile entries {}).shared_scripts ∨
        q ∈ (scanDirectory getRelativePath openFile entries {}).files ∨
        q ∈ (scanDirectory getRelativePath openFile entries {}).ui_pages →
      ∃ e' ∈ entries, q = getRelativePath e' ∧
        ¬ (toLowerStr (filename e') = lit "fxmanifest.lua" ∨
          toLowerStr (filename e') = lit "__resource.lua")) ∧
    (∀ (entries : List Str) (q : Str),
      (∀ e' ∈ entries, filename (getRelativePath e') = filename e') →
      q ∈ (scanDirectory getRelativePath openFile entries {}).client_scripts ∨
        q ∈ (scanDirectory getRelativePath openFile entries {}).server_scripts ∨
        q ∈ (scanDirectory getRelativePath openFile entries {}).shared_scripts ∨
        q ∈ (scanDirectory getRelativePath openFile entries {}).files ∨
        q ∈ (scanDirectory getRelativePath openFile entries {}).ui_pages →
      ¬ (toLowerStr (filename q) = lit "fxmanifest.lua" ∨
        toLowerStr (filename q) = lit "__resource.lua")) ∧
    scanDirectory getRelativePath openFile [e] {} = {} := by
  refine ⟨?_, ?_, ?_, scanDirectory_reserved getRelativePath openFile e {} h⟩
  · intro before after c
    rw [scanDirectory_append, scanDirectory_cons,
      scanDirectory_reserved getRelativePath openFile e _ h, ← scanDirectory_append]
  · intro entries q hq
    exact mem_scanDirectory_lists getRelativePath openFile entries q hq
  · intro entries q hnames hq
    obtain ⟨e', he', hqe, hres⟩ := mem_scanDirectory_lists getRelativePath openFile entries q hq
    rw [hqe, hnames e' he']
    exact hres

/-- C12, amended, on a scan of `/res` with `sub/FxManifest.LUA` between two other files,
and on a tree with `fxmanifest.lua` alone, each file holding a dependency line. -/
theorem reserved_manifest_skipped_witness :
    toLowerStr (filename (lit "/res/sub/FxManifest.LUA")) = lit "fxmanifest.lua" ∧
    scanDirectory (relativeTo (lit "/res")) (fun _ => some (lit "dependency 'x'\n"))
        [lit "/res/a.lua", lit "/res/sub/FxManifest.LUA", lit "/res/b.js"] {}
      = { shared_scripts := [lit "a.lua"], files := [lit "b.js"], dependencies := [lit "x"] } ∧
    scanDirectory (relativeTo (lit "/res")) (fun _ => some (lit "dependency 'x'\n"))
        [lit "/res/fxmanifest.lua"] {} = {} := by
  refine ⟨by decide, ?_, ?_⟩
  · exact ((reserved_manifest_skipped (relativeTo (lit "/res"))
      (fun _ => some (lit "dependency 'x'\n"))
      (lit "/res/sub/FxManifest.LUA") (Or.inl (by decide))).1
        [lit "/res/a.lua"] [lit "/res/b.js"] {}).trans (by decide)
  · exact (reserved_manifest_skipped (relativeTo (lit "/res"))
      (fun _ => some (lit "dependency 'x'\n"))
      (lit "/res/fxmanifest.lua") (Or.inl (by decide))).2.2.2

/-- C13: for a script whose file does not open, `categorizeFile` fills the path lists as it
does when the file opens, whatever it holds, and leaves the dependency set as it was; the
result is a state like any other and the scan goes on from it with the entries that
follow. -/
theorem unreadable_script_still_listed (openFile : Str → Option Str) (p : Str)
    (c : FileCategories) (hl : lit ".lua" <:+ toLowerStr p) (hopen : openFile p = none) :
    (∀ readable : Str → Option Str,
      (categorizeFile openFile p c).client_scripts
          = (categorizeFile readable p c).client_scripts ∧
      (categorizeFile openFile p c).server_scripts
          = (categorizeFile readable p c).server_scripts ∧
      (categorizeFile openFile p c).shared_scripts
          = (categorizeFile readable p c).shared_scripts ∧
      (categorizeFile openFile p c).files = (categorizeFile readable p c).files ∧
      (categorizeFile openFile p c).ui_pages = (categorizeFile readable p c).ui_pages) ∧
    ((categorizeFile openFile p c).client_scripts = c.client_scripts ++ [p] ∨
      (categorizeFile openFile p c).server_scripts = c.server_scripts ++ [p] ∨
      (categorizeFile openFile p c).shared_scripts = c.shared_scripts ++ [p]) ∧
    (categorizeFile openFile p c).dependencies = c.dependencies ∧
    (∀ (getRelativePath : Str → Str) (e : Str) (rest : List Str),
      getRelativePath e = p →
      ¬ (toLowerStr (filename e) = lit "fxmanifest.lua" ∨
        toLowerStr (filename e) = lit "__resource.lua") →
      scanDirectory getRelativePath openFile (e :: rest) c
        = scanDirectory getRelativePath openFile rest (categorizeFile openFile p c)) := by
  refine ⟨?_, ?_, ?_, ?_⟩
  · intro readable
    obtain ⟨a1, a2, a3, a4, a5⟩ := categorizeFile_lists_append openFile p c
    obtain ⟨b1, b2, b3, b4, b5⟩ := categorizeFile_lists_append readable p c
    rw [a1, a2, a3, a4, a5, b1, b2, b3, b4, b5]
    exact ⟨rfl, rfl, rfl, rfl, rfl⟩
  · obtain ⟨hc, -, -⟩ := categorizeFile_script_lists openFile p c hl
    rcases hc with ⟨-, e, -, -⟩ | ⟨-, -, -, e, -⟩ | ⟨-, -, -, -, e⟩
    · exact Or.inl e
    · exact Or.inr (Or.inl e)
    · exact Or.inr (Or.inr e)
  · rw [categorizeFile_lua openFile p c hl]
    unfold dependencyScan
    rw [hopen]
    dsimp only
    split_ifs <;> rfl
  · intro getRelativePath e rest hrel hres
    rw [scanDirectory_cons, scanDirectory_accepted getRelativePath openFile e c hres, hrel]

/-- C13 on a scan of `/res`: `server/sv_init.lua` does not open, `client/main.lua`, which
follows, does. -/
theorem unreadable_script_still_listed_witness :
    scanDirectory (relativeTo (lit "/res"))
        (fun p => if p = lit "client/main.lua" then some (lit "dependency 'x'\n") else none)
        [lit "/res/server/sv_init.lua", lit "/res/client/main.lua"] {}
      = { client_scripts := [lit "client/main.lua"],
          server_scripts := [lit "server/sv_init.lua"],
          dependencies := [lit "x"] } ∧
    (categorizeFile
        (fun p => if p = lit "client/main.lua" then some (lit "dependency 'x'\n") else none)
        (lit "server/sv_init.lua") {}).dependencies = [] := by
  have h := unreadable_script_still_listed
    (fun p => if p = lit "client/main.lua" then some (lit "dependency 'x'\n") else none)
    (lit "server/sv_init.lua") {} (by decide) (by decide)
  refine ⟨?_, h.2.2.1⟩
  rw [h.2.2.2 (relativeTo (lit "/res")) (lit "/res/server/sv_init.lua")
    [lit "/res/client/main.lua"] (by decide) (by decide)]
  decide

/-! ## The order `std::sort` sorts by -/

theorem strLe_total (a b : Str) : strLe a b ∨ strLe b a := by
  unfold strLe
  by_cases h : strLt b a = true
  · exact Or.inr (strLt_asymm b a h)
  · exact Or.inl (Bool.eq_false_iff.2 h)

theorem strLe_trans (a b c : Str) (hab : strLe a b) (hbc : strLe b c) : strLe a c := by
  unfold strLe at hab hbc ⊢
  by_cases hca : strLt c a = true
  · by_cases h : strLt a b = true
    · rw [strLt_trans c a b hca h] at hbc
      exact absurd hbc (by simp)
    · have e : a = b := strLt_eq_of_not_lt a b (Bool.eq_false_iff.2 h) hab
      rw [← e, hca] at hbc
      exact absurd hbc (by simp)
  · exact Bool.eq_false_iff.2 hca

theorem strLe_antisymm (a b : Str) (hab : strLe a b) (hba : strLe b a) : a = b :=
  strLt_eq_of_not_lt a b hba hab

theorem strLe_isTotal : IsTotal Str strLe := ⟨strLe_total⟩

theorem strLe_isTrans : IsTrans Str strLe := ⟨strLe_trans⟩

theorem strLe_isAntisymm : IsAntisymm Str strLe := ⟨strLe_antisymm⟩

/-- The sorted vector holds the elements of the vector, each as often as before. -/
theorem sortPaths_perm (v : List Str) : (sortPaths v).Perm v :=
  List.perm_insertionSort strLe v

/-- The sorted vector is ascending: no element is smaller than one before it. -/
theorem sortPaths_sorted (v : List Str) : (sortPaths v).Pairwise strLe := by
  haveI := strLe_isTotal
  haveI := strLe_isTrans
  exact List.sorted_insertionSort strLe v

/-- Sorting forgets the order the elements came in. -/
theorem sortPaths_eq_of_perm (v w : List Str) (h : v.Perm w) : sortPaths v = sortPaths w := by
  haveI := strLe_isAntisymm
  exact List.eq_of_perm_of_sorted
    (((sortPaths_perm v).trans h).trans (sortPaths_perm w).symm)
    (sortPaths_sorted v) (sortPaths_sorted w)

theorem sortPaths_eq_nil (v : List Str) : sortPaths v = [] ↔ v = [] := by
  constructor
  · intro h
    have := sortPaths_perm v
    rw [h] at this
    exact this.symm.eq_nil
  · intro h
    rw [h]
    rfl

/-- Two strictly ascending lists with the same elements are the same list. -/
theorem sorted_ext (l₁ l₂ : List Str) (h₁ : l₁.Pairwise (fun a b => strLt a b = true))
    (h₂ : l₂.Pairwise (fun a b => strLt a b = true)) (h : ∀ x, x ∈ l₁ ↔ x ∈ l₂) : l₁ = l₂ := by
  haveI : IsAntisymm Str (fun a b => strLt a b = true) :=
    ⟨fun a b hab hba => by
      rw [strLt_asymm a b hab] at hba
      exact absurd hba (by simp)⟩
  exact List.eq_of_perm_of_sorted
    ((List.perm_ext_iff_of_nodup (sorted_nodup l₁ h₁) (sorted_nodup l₂ h₂)).2 h) h₁ h₂

/-! ## generateManifest: the header (C14, C15) -/

/-- C15, as stated, fails: for the empty `FileCategories` and the folder `res` the document
is the header alone, and the header has five lines that are not blank, not four. -/
theorem empty_manifest_not_four_lines :
    manifestText (lit "res") {}
      = lit "fx_version 'cerulean'\ngame 'gta5'\n\nauthor 'Auto-Generated'\ndescription 'res'\nversion '1.0.0'\n\n" ∧
    ((getlines (manifestText (lit "res") {})).filter (fun l => decide (l ≠ []))).length = 5 ∧
    ¬ ((getlines (manifestText (lit "res") {})).filter (fun l => decide (l ≠ []))).length = 4 ∧
    ¬ ((manifestLines (lit "res") {}).filter (fun l => decide (l ≠ []))).length = 4 := by
  decide

/-- C15, amended: for the empty `FileCategories` the document is the header and nothing
else: the five header lines `fx_version`, `game`, `author`, `description`, `version` with
the two blank lines, no dependency line and no block; five of its lines are not blank. -/
theorem empty_manifest_is_header (folderName : Str) :
    manifestLines folderName {}
      = [lit "fx_version 'cerulean'", lit "game 'gta5'", [], lit "author 'Auto-Generated'",
          lit "description '" ++ folderName ++ lit "'", lit "version '1.0.0'", []] ∧
    manifestText folderName {}
      = lit "fx_version 'cerulean'\ngame 'gta5'\n\nauthor 'Auto-Generated'\ndescription '"
          ++ folderName ++ lit "'\nversion '1.0.0'\n\n" ∧
    ((manifestLines folderName {}).filter (fun l => decide (l ≠ []))).length = 5 ∧
    (manifestLines folderName {}).filter isDependencyLine = [] ∧
    (∀ (directory : Str) (dryRun : Bool), generateManifest directory {} dryRun true
      = (if dryRun then RenderResult.preview else RenderResult.written)
          (lit "fx_version 'cerulean'\ngame 'gta5'\n\nauthor 'Auto-Generated'\ndescription '"
            ++ filename directory ++ lit "'\nversion '1.0.0'\n\n")) := by
  have hlines : ∀ name : Str, manifestLines name {}
      = [lit "fx_version 'cerulean'", lit "game 'gta5'", [], lit "author 'Auto-Generated'",
          lit "description '" ++ name ++ lit "'", lit "version '1.0.0'", []] := fun _ => rfl
  have htext : ∀ name : Str, manifestText name {}
      = lit "fx_version 'cerulean'\ngame 'gta5'\n\nauthor 'Auto-Generated'\ndescription '"
          ++ name ++ lit "'\nversion '1.0.0'\n\n" := by
    intro name
    rw [manifestText_eq_lines, hlines]
    have h1 : lit "fx_version 'cerulean'\ngame 'gta5'\n\nauthor 'Auto-Generated'\ndescription '"
        = lit "fx_version 'cerulean'" ++ [10] ++ (lit "game 'gta5'" ++ [10] ++ ([10] ++
            (lit "author 'Auto-Generated'" ++ [10] ++ lit "description '"))) := by decide
    have h2 : lit "'\nversion '1.0.0'\n\n" = lit "'" ++ [10] ++ (lit "version '1.0.0'" ++ [10] ++ [10]) := by
      decide
    rw [h1, h2]
    simp only [List.flatMap_cons, List.flatMap_nil, List.append_assoc, List.nil_append,
      List.append_nil]
  refine ⟨hlines folderName, htext folderName, ?_, ?_, ?_⟩
  · rw [hlines]
    rfl
  · rw [filter_isDependencyLine_manifest]
    rfl
  · intro directory dryRun
    unfold generateManifest
    dsimp only
    rw [htext]
    cases dryRun <;> rfl

/-! ## generateManifest: the blocks (C16, C17) -/

theorem isStructureLine_pathLine (s : Str) :
    isStructureLine (lit "    '" ++ s ++ lit "',") = false := rfl

theorem isStructureLine_dependency (name : Str) :
    isStructureLine (lit "dependency '" ++ name ++ lit "'") = true := by
  unfold isStructureLine
  rw [isDependencyLine_dependency]
  rfl

/-- Of the lines of one block, the opening line and the closing line give structure. -/
theorem filter_isStructureLine_block (opening : Str) (v : List Str) (closing : List Str)
    (ho : isStructureLine opening = true)
    (hc : closing.filter isStructureLine = [lit "\x7d"]) :
    (blockLines opening (sortPaths v) closing).filter isStructureLine
      = if v ≠ [] then [opening, lit "\x7d"] else [] := by
  unfold blockLines
  by_cases h : v ≠ []
  · have hs : sortPaths v ≠ [] := fun hs => h ((sortPaths_eq_nil v).1 hs)
    rw [if_pos h, if_pos hs, List.filter_append, List.filter_append, hc]
    have hpaths : List.filter isStructureLine
        (List.map (fun s => lit "    '" ++ s ++ lit "',") (sortPaths v)) = [] := by
      rw [List.filter_eq_nil_iff]
      intro l hl
      obtain ⟨s, -, rfl⟩ := List.mem_map.1 hl
      rw [isStructureLine_pathLine]
      exact Bool.false_ne_true
    rw [hpaths]
    simp [List.filter_cons, ho]
  · have hv : v = [] := by simpa using h
    rw [if_neg h, hv]
    rfl

/-- The lines of the manifest that give it structure: the dependency lines, then for each
list that is not empty, in the order shared, client, server, ui_page, files, the opening
line and the closing line of its block. -/
theorem filter_isStructureLine_manifest (folderName : Str) (c : FileCategories) :
    (manifestLines folderName c).filter isStructureLine
      = c.dependencies.map (fun dep => lit "dependency '" ++ dep ++ lit "'") ++
        (if c.shared_scripts ≠ [] then [lit "shared_scripts \x7b", lit "\x7d"] else []) ++
        (if c.client_scripts ≠ [] then [lit "client_scripts \x7b", lit "\x7d"] else []) ++
        (if c.server_scripts ≠ [] then [lit "server_scripts \x7b", lit "\x7d"] else []) ++
        (if c.ui_pages ≠ [] then [lit "ui_page \x7b", lit "\x7d"] else []) ++
        (if c.files ≠ [] then [lit "files \x7b", lit "\x7d"] else []) := by
  unfold manifestLines
  simp only [List.filter_append]
  rw [filter_isStructureLine_block _ _ _ (by decide) (by decide),
    filter_isStructureLine_block _ _ _ (by decide) (by decide),
    filter_isStructureLine_block _ _ _ (by decide) (by decide),
    filter_isStructureLine_block _ _ _ (by decide) (by decide),
    filter_isStructureLine_block _ _ _ (by decide) (by decide)]
  have hhead : List.filter isStructureLine
      [lit "fx_version 'cerulean'", lit "game 'gta5'", [], lit "author 'Auto-Generated'",
        lit "description '" ++ folderName ++ lit "'", lit "version '1.0.0'", []] = [] := rfl
  have hdeps : List.filter isStructureLine
      (if c.dependencies ≠ [] then
        c.dependencies.map (fun dep => lit "dependency '" ++ dep ++ lit "'") ++ [[]]
       else [])
      = c.dependencies.map (fun dep => lit "dependency '" ++ dep ++ lit "'") := by
    by_cases hd : c.dependencies ≠ []
    · rw [if_pos hd, List.filter_append]
      have h1 : List.filter isStructureLine [([] : Str)] = [] := by decide
      rw [h1, List.append_nil, List.filter_eq_self]
      intro l hl
      obtain ⟨d, -, rfl⟩ := List.mem_map.1 hl
      exact isStructureLine_dependency d
    · have : c.dependencies = [] := by simpa using hd
      rw [if_neg hd, this]
      rfl
  rw [hhead, hdeps, List.nil_append]

theorem count_dependencyLines_of_not (o : Str) (deps : List Str)
    (ho : isDependencyLine o = false) :
    (deps.map (fun dep => lit "dependency '" ++ dep ++ lit "'")).count o = 0 := by
  apply List.count_eq_zero_of_not_mem
  intro hmem
  obtain ⟨d, -, rfl⟩ := List.mem_map.1 hmem
  rw [isDependencyLine_dependency] at ho
  exact absurd ho (by simp)

/-- How often a block line that is not a dependency line is written: as often as it is among
the opening and closing lines of the blocks of the lists that are not empty. -/
theorem count_structureLine (folderName : Str) (c : FileCategories) (o : Str)
    (hs : isStructureLine o = true) (hd : isDependencyLine o = false) :
    (manifestLines folderName c).count o
      = ((if c.shared_scripts ≠ [] then [lit "shared_scripts \x7b", lit "\x7d"] else []) ++
        (if c.client_scripts ≠ [] then [lit "client_scripts \x7b", lit "\x7d"] else []) ++
        (if c.server_scripts ≠ [] then [lit "server_scripts \x7b", lit "\x7d"] else []) ++
        (if c.ui_pages ≠ [] then [lit "ui_page \x7b", lit "\x7d"] else []) ++
        (if c.files ≠ [] then [lit "files \x7b", lit "\x7d"] else [])).count o := by
  rw [← List.count_filter hs, filter_isStructureLine_manifest]
  simp only [List.count_append]
  rw [count_dependencyLines_of_not o _ hd]
  omega

/-- Each opening line is written once when its list is not empty and not at all when it
is empty. -/
theorem count_blockOpenings (folderName : Str) (c : FileCategories) :
    (manifestLines folderName c).count (lit "shared_scripts \x7b")
        = (if c.shared_scripts ≠ [] then 1 else 0) ∧
    (manifestLines folderName c).count (lit "client_scripts \x7b")
        = (if c.client_scripts ≠ [] then 1 else 0) ∧
    (manifestLines folderName c).count (lit "server_scripts \x7b")
        = (if c.server_scripts ≠ [] then 1 else 0) ∧
    (manifestLines folderName c).count (lit "ui_page \x7b")
        = (if c.ui_pages ≠ [] then 1 else 0) ∧
    (manifestLines folderName c).count (lit "files \x7b")
        = (if c.files ≠ [] then 1 else 0) := by
  refine ⟨?_, ?_, ?_, ?_, ?_⟩ <;>
    (rw [count_structureLine folderName c _ (by decide) (by decide)]
     split_ifs <;> decide)

/-- C16: the block of a list is written exactly when the list is not empty, and then once:
each of the five opening lines occurs once if its list is not empty and not at all if it is
empty; a dependency line occurs exactly when the dependency set is not empty; and the lines
that give the document its structure are the dependency lines followed by the opening and
closing lines of the blocks present, in the order shared_scripts, client_scripts,
server_scripts, ui_page, files. -/
theorem manifest_blocks_present_iff_nonempty (folderName : Str) (c : FileCategories) :
    (manifestLines folderName c).count (lit "shared_scripts \x7b")
        = (if c.shared_scripts ≠ [] then 1 else 0) ∧
    (manifestLines folderName c).count (lit "client_scripts \x7b")
        = (if c.client_scripts ≠ [] then 1 else 0) ∧
    (manifestLines folderName c).count (lit "server_scripts \x7b")
        = (if c.server_scripts ≠ [] then 1 else 0) ∧
    (manifestLines folderName c).count (lit "ui_page \x7b")
        = (if c.ui_pages ≠ [] then 1 else 0) ∧
    (manifestLines folderName c).count (lit "files \x7b")
        = (if c.files ≠ [] then 1 else 0) ∧
    ((manifestLines folderName c).filter isDependencyLine ≠ [] ↔ c.dependencies ≠ []) ∧
    (manifestLines folderName c).filter isStructureLine
      = c.dependencies.map (fun dep => lit "dependency '" ++ dep ++ lit "'") ++
        (if c.shared_scripts ≠ [] then [lit "shared_scripts \x7b", lit "\x7d"] else []) ++
        (if c.client_scripts ≠ [] then [lit "client_scripts \x7b", lit "\x7d"] else []) ++
        (if c.server_scripts ≠ [] then [lit "server_scripts \x7b", lit "\x7d"] else []) ++
        (if c.ui_pages ≠ [] then [lit "ui_page \x7b", lit "\x7d"] else []) ++
        (if c.files ≠ [] then [lit "files \x7b", lit "\x7d"] else []) := by
  obtain ⟨h1, h2, h3, h4, h5⟩ := count_blockOpenings folderName c
  refine ⟨h1, h2, h3, h4, h5, ?_, filter_isStructureLine_manifest folderName c⟩
  rw [filter_isDependencyLine_manifest]
  simp

/-- The order of `std::string` is the lexicographic order of the byte lists. -/
theorem strLt_iff_lt (a b : Str) : strLt a b = true ↔ a < b := by
  induction a generalizing b with
  | nil =>
    cases b with
    | nil =>
      constructor
      · intro h; simp [strLt] at h
      · intro h; cases h
    | cons y ys =>
      constructor
      · intro _; exact List.nil_lt_cons y ys
      · intro _; rfl
  | cons x xs ih =>
    cases b with
    | nil =>
      constructor
      · intro h; simp [strLt] at h
      · intro h; cases h
    | cons y ys =>
      simp only [strLt]
      constructor
      · intro h
        split_ifs at h with h1 h2
        · exact List.Lex.rel h1
        · have hxy : x = y := by omega
          subst hxy
          exact List.Lex.cons ((ih ys).1 h)
      · intro h
        cases h with
        | rel hlt => rw [if_pos hlt]
        | cons hrest =>
          rw [if_neg (Nat.lt_irrefl x), if_neg (Nat.lt_irrefl x)]
          exact (ih ys).2 hrest

/-- Not smaller the other way round: smaller or the same string. -/
theorem strLe_iff (a b : Str) : strLe a b ↔ strLt a b = true ∨ a = b := by
  unfold strLe
  constructor
  · intro h
    by_cases hab : strLt a b = true
    · exact Or.inl hab
    · exact Or.inr (strLt_eq_of_not_lt a b (Bool.eq_false_iff.2 hab) h)
  · rintro (h | h)
    · exact strLt_asymm a b h
    · rw [h]; exact strLt_irrefl b

/-- Where a block is in the written lines: since its opening line is written once, the lines
before it do not hold it. -/
theorem block_position (L before rest : List Str) (o : Str) (hL : L = before ++ o :: rest)
    (hcount : L.count o = 1) : o ∉ before := by
  intro hmem
  have hpos : 0 < before.count o := List.count_pos_iff.2 hmem
  rw [hL, List.count_append, List.count_cons_self] at hcount
  omega

/-- The lines of the block of a list that is not empty: the opening line, one line per
element of the sorted list, the closing lines. -/
theorem blockLines_of_ne (opening : Str) (v : List Str) (tail : List Str) (hv : v ≠ []) :
    blockLines opening (sortPaths v) (lit "\x7d" :: tail)
      = (opening :: ((sortPaths v).map pathLine ++ [lit "\x7d"])) ++ tail := by
  unfold blockLines
  have hs : sortPaths v ≠ [] := fun hs => hv ((sortPaths_eq_nil v).1 hs)
  rw [if_pos hs]
  simp only [List.singleton_append, List.cons_append, List.append_assoc, List.nil_append]
  rfl

/-- C17: for each of the five lists that is not empty, its opening line is written once and
is followed at once by one line `    '<path>',` per element of the sorted list, in that
order, and then by the closing line; the sorted list holds the elements of the list, each as
often as the list does, and is ascending in the order of `std::string`, which is the
lexicographic order of the bytes. Each block is built from its own list alone. -/
theorem manifest_block_contents (folderName : Str) (c : FileCategories) :
    (c.shared_scripts ≠ [] →
      (lit "shared_scripts \x7b" ::
        ((sortPaths c.shared_scripts).map pathLine ++ [lit "\x7d"]))
          <:+: manifestLines folderName c ∧
      (manifestLines folderName c).count (lit "shared_scripts \x7b") = 1) ∧
    (c.client_scripts ≠ [] →
      (lit "client_scripts \x7b" ::
        ((sortPaths c.client_scripts).map pathLine ++ [lit "\x7d"]))
          <:+: manifestLines folderName c ∧
      (manifestLines folderName c).count (lit "client_scripts \x7b") = 1) ∧
    (c.server_scripts ≠ [] →
      (lit "server_scripts \x7b" ::
        ((sortPaths c.server_scripts).map pathLine ++ [lit "\x7d"]))
          <:+: manifestLines folderName c ∧
      (manifestLines folderName c).count (lit "server_scripts \x7b") = 1) ∧
    (c.ui_pages ≠ [] →
      (lit "ui_page \x7b" :: ((sortPaths c.ui_pages).map pathLine ++ [lit "\x7d"]))
          <:+: manifestLines folderName c ∧
      (manifestLines folderName c).count (lit "ui_page \x7b") = 1) ∧
    (c.files ≠ [] →
      (lit "files \x7b" :: ((sortPaths c.files).map pathLine ++ [lit "\x7d"]))
          <:+: manifestLines folderName c ∧
      (manifestLines folderName c).count (lit "files \x7b") = 1) ∧
    (∀ v : List Str, (sortPaths v).Perm v ∧
      (sortPaths v).Pairwise (fun a b => strLt a b = true ∨ a = b) ∧
      (sortPaths v).Pairwise (fun a b => a < b ∨ a = b)) := by
  obtain ⟨k1, k2, k3, k4, k5⟩ := count_blockOpenings folderName c
  refine ⟨fun h => ⟨?_, by rw [k1, if_pos h]⟩, fun h => ⟨?_, by rw [k2, if_pos h]⟩,
    fun h => ⟨?_, by rw [k3, if_pos h]⟩, fun h => ⟨?_, by rw [k4, if_pos h]⟩,
    fun h => ⟨?_, by rw [k5, if_pos h]⟩, ?_⟩
  · unfold manifestLines
    dsimp only
    rw [blockLines_of_ne _ _ _ h]
    simp only [← List.append_assoc]
    exact ((((List.infix_append _ _ _).trans (List.prefix_append _ _).isInfix).trans
      (List.prefix_append _ _).isInfix).trans (List.prefix_append _ _).isInfix).trans
      (List.prefix_append _ _).isInfix
  · unfold manifestLines
    dsimp only
    rw [blockLines_of_ne (lit "client_scripts \x7b") _ _ h]
    simp only [← List.append_assoc]
    exact (((List.infix_append _ _ _).trans (List.prefix_append _ _).isInfix).trans
      (List.prefix_append _ _).isInfix).trans (List.prefix_append _ _).isInfix
  · unfold manifestLines
    dsimp only
    rw [blockLines_of_ne (lit "server_scripts \x7b") _ _ h]
    simp only [← List.append_assoc]
    exact ((List.infix_append _ _ _).trans (List.prefix_append _ _).isInfix).trans
      (List.prefix_append _ _).isInfix
  · unfold manifestLines
    dsimp only
    rw [blockLines_of_ne (lit "ui_page \x7b") _ _ h]
    simp only [← List.append_assoc]
    exact (List.infix_append _ _ _).trans (List.prefix_append _ _).isInfix
  · unfold manifestLines
    dsimp only
    have hb := blockLines_of_ne (lit "files \x7b") c.files [] h
    rw [List.append_nil] at hb
    rw [hb]
    exact (List.suffix_append _ _).isInfix
  · intro v
    refine ⟨sortPaths_perm v, ?_, ?_⟩
    · exact (sortPaths_sorted v).imp (fun {a b} hab => (strLe_iff a b).1 hab)
    · exact (sortPaths_sorted v).imp
        (fun {a b} hab => ((strLe_iff a b).1 hab).imp (strLt_iff_lt a b).1 id)

/-- C17 for the shared scripts `b.lua`, `a.lua`, `b.lua`: sorted, the duplicate kept. -/
theorem manifest_block_contents_witness :
    [lit "shared_scripts \x7b", lit "    'a.lua',", lit "    'b.lua',", lit "    'b.lua',",
        lit "\x7d"]
      <:+: manifestLines (lit "res")
        { shared_scripts := [lit "b.lua", lit "a.lua", lit "b.lua"] } ∧
    sortPaths [lit "b.lua", lit "a.lua", lit "b.lua"]
      = [lit "a.lua", lit "b.lua", lit "b.lua"] :=
  ⟨((manifest_block_contents (lit "res")
      { shared_scripts := [lit "b.lua", lit "a.lua", lit "b.lua"] }).1 (by decide)).1,
    by decide⟩

/-! ## generateManifest: the order of discovery does not matter (C18) -/

/-- The written lines depend on each path list only through its elements and on the
dependency set. -/
theorem manifestLines_congr (folderName : Str) (c₁ c₂ : FileCategories)
    (h1 : c₁.client_scripts.Perm c₂.client_scripts)
    (h2 : c₁.server_scripts.Perm c₂.server_scripts)
    (h3 : c₁.shared_scripts.Perm c₂.shared_scripts)
    (h4 : c₁.files.Perm c₂.files) (h5 : c₁.ui_pages.Perm c₂.ui_pages)
    (hd : c₁.dependencies = c₂.dependencies) :
    manifestLines folderName c₁ = manifestLines folderName c₂ := by
  unfold manifestLines
  dsimp only
  rw [sortPaths_eq_of_perm _ _ h1, sortPaths_eq_of_perm _ _ h2, sortPaths_eq_of_perm _ _ h3,
    sortPaths_eq_of_perm _ _ h4, sortPaths_eq_of_perm _ _ h5, hd]

/-- Two scans of the same entries in different orders: the path lists hold the same paths
and the dependency sets are equal. -/
theorem scanDirectory_perm (getRelativePath : Str → Str) (openFile : Str → Option Str)
    (es₁ es₂ : List Str) (h : es₁.Perm es₂) :
    (scanDirectory getRelativePath openFile es₁ {}).client_scripts.Perm
        (scanDirectory getRelativePath openFile es₂ {}).client_scripts ∧
    (scanDirectory getRelativePath openFile es₁ {}).server_scripts.Perm
        (scanDirectory getRelativePath openFile es₂ {}).server_scripts ∧
    (scanDirectory getRelativePath openFile es₁ {}).shared_scripts.Perm
        (scanDirectory getRelativePath openFile es₂ {}).shared_scripts ∧
    (scanDirectory getRelativePath openFile es₁ {}).files.Perm
        (scanDirectory getRelativePath openFile es₂ {}).files ∧
    (scanDirectory getRelativePath openFile es₁ {}).ui_pages.Perm
        (scanDirectory getRelativePath openFile es₂ {}).ui_pages ∧
    (scanDirectory getRelativePath openFile es₁ {}).dependencies
        = (scanDirectory getRelativePath openFile es₂ {}).dependencies := by
  obtain ⟨a1, a2, a3, a4, a5⟩ := scanDirectory_lists getRelativePath openFile es₁ {}
  obtain ⟨b1, b2, b3, b4, b5⟩ := scanDirectory_lists getRelativePath openFile es₂ {}
  rw [a1, a2, a3, a4, a5, b1, b2, b3, b4, b5]
  simp only [List.nil_append]
  refine ⟨h.flatMap_right _, h.flatMap_right _, h.flatMap_right _, h.flatMap_right _,
    h.flatMap_right _, ?_⟩
  apply sorted_ext
  · exact reachable_sorted _
      (scanDirectory_reachable getRelativePath openFile es₁ {} Reachable.empty)
  · exact reachable_sorted _
      (scanDirectory_reachable getRelativePath openFile es₂ {} Reachable.empty)
  · intro x
    rw [scanDirectory_dependencies, scanDirectory_dependencies, mem_foldl_processLine,
      mem_foldl_processLine]
    have hl : ∀ line, line ∈ scannedLines getRelativePath openFile es₁ ↔
        line ∈ scannedLines getRelativePath openFile es₂ := by
      intro line
      unfold scannedLines
      exact (h.flatMap_right _).mem_iff
    simp only [hl]

/-- C18: two `FileCategories` whose five path lists are permutations of each other and whose
dependency sets are equal render to the same lines and the same text, and
`generateManifest` does the same for both; so two scans of the same entries in different
orders give the same document. -/
theorem render_order_independent (folderName : Str) (c₁ c₂ : FileCategories)
    (h1 : c₁.client_scripts.Perm c₂.client_scripts)
    (h2 : c₁.server_scripts.Perm c₂.server_scripts)
    (h3 : c₁.shared_scripts.Perm c₂.shared_scripts)
    (h4 : c₁.files.Perm c₂.files) (h5 : c₁.ui_pages.Perm c₂.ui_pages)
    (hd : c₁.dependencies = c₂.dependencies) :
    manifestText folderName c₁ = manifestText folderName c₂ ∧
    manifestLines folderName c₁ = manifestLines folderName c₂ ∧
    (∀ (directory : Str) (dryRun canOpen : Bool),
      generateManifest directory c₁ dryRun canOpen
        = generateManifest directory c₂ dryRun canOpen) ∧
    (∀ (getRelativePath : Str → Str) (openFile : Str → Option Str) (es₁ es₂ : List Str),
      es₁.Perm es₂ →
      manifestText folderName (scanDirectory getRelativePath openFile es₁ {})
        = manifestText folderName (scanDirectory getRelativePath openFile es₂ {})) := by
  have hlines : ∀ name : Str, manifestLines name c₁ = manifestLines name c₂ :=
    fun name => manifestLines_congr name c₁ c₂ h1 h2 h3 h4 h5 hd
  have htext : ∀ name : Str, manifestText name c₁ = manifestText name c₂ := by
    intro name
    rw [manifestText_eq_lines, manifestText_eq_lines, hlines]
  refine ⟨htext folderName, hlines folderName, ?_, ?_⟩
  · intro directory dryRun canOpen
    unfold generateManifest
    dsimp only
    rw [htext]
  · intro getRelativePath openFile es₁ es₂ hp
    obtain ⟨p1, p2, p3, p4, p5, pd⟩ := scanDirectory_perm getRelativePath openFile es₁ es₂ hp
    rw [manifestText_eq_lines, manifestText_eq_lines,
      manifestLines_congr folderName _ _ p1 p2 p3 p4 p5 pd]

/-- C18 for two scans of `/res` that yield `b.js`, `a.js` in both orders. -/
theorem render_order_independent_witness :
    manifestText (lit "res")
        (scanDirectory (relativeTo (lit "/res")) (fun _ => none)
          [lit "/res/b.js", lit "/res/a.js"] {})
      = manifestText (lit "res")
        (scanDirectory (relativeTo (lit "/res")) (fun _ => none)
          [lit "/res/a.js", lit "/res/b.js"] {}) ∧
    (scanDirectory (relativeTo (lit "/res")) (fun _ => none)
        [lit "/res/b.js", lit "/res/a.js"] {}).files
      ≠ (scanDirectory (relativeTo (lit "/res")) (fun _ => none)
        [lit "/res/a.js", lit "/res/b.js"] {}).files :=
  ⟨(render_order_independent (lit "res")
      (scanDirectory (relativeTo (lit "/res")) (fun _ => none)
        [lit "/res/b.js", lit "/res/a.js"] {})
      (scanDirectory (relativeTo (lit "/res")) (fun _ => none)
        [lit "/res/a.js", lit "/res/b.js"] {})
      (by decide) (by decide) (by decide) (by decide) (by decide) (by decide)).1,
    by decide⟩

/-! ## main: the manifest file cannot be opened (C19) -/

/-- C19, failing input: `main` is run on the directory `/res`, which holds
`client/main.lua`, and `fxmanifest.lua` cannot be opened for writing there. The call of
`generateManifest` ends without any manifest text and without the confirmation, with the
error message on `std::cerr`, and `main` still returns the exit code 0; for a directory that
does not exist it returns 1. -/
theorem main_exit_code_when_output_fails :
    (main [lit "/res"]
      { stdinLine := [], pathExists := fun _ => true, isDirectory := fun _ => true,
        regularFiles := fun _ => some [lit "/res/client/main.lua"],
        getRelativePath := relativeTo, openFile := fun _ => none,
        canCreate := fun _ => false }).exitCode = 0 ∧
    (main [lit "/res"]
      { stdinLine := [], pathExists := fun _ => true, isDirectory := fun _ => true,
        regularFiles := fun _ => some [lit "/res/client/main.lua"],
        getRelativePath := relativeTo, openFile := fun _ => none,
        canCreate := fun _ => false }).render = some RenderResult.openFailed ∧
    RenderResult.openFailed.effects (lit "\"/res/fxmanifest.lua\"")
      = { cout := [], cerr := lit "Error: Could not create fxmanifest.lua\n", file := none } ∧
    (main [lit "/res"]
      { stdinLine := [], pathExists := fun _ => false, isDirectory := fun _ => false,
        regularFiles := fun _ => some [], getRelativePath := relativeTo,
        openFile := fun _ => none, canCreate := fun _ => false }).exitCode = 1 := by
  decide

/-- Whenever `main` gets as far as `generateManifest`, it returns the exit code 0, however
that call ended. -/
theorem main_exit_code_after_render (args : List Str) (env : Env) (r : RenderResult)
    (h : (main args env).render = some r) : (main args env).exitCode = 0 := by
  unfold main at h ⊢
  dsimp only at h ⊢
  split_ifs at h ⊢
  all_goals
    split at h
    · exact absurd h (by simp)
    · rfl

/-- When the directory iteration throws, the run is aborted before anything is rendered. -/
theorem main_aborted_when_iteration_throws (args : List Str) (env : Env)
    (hexists : env.pathExists (if (parseArgs args).1 = [] then env.stdinLine
      else (parseArgs args).1) = true)
    (hdir : env.isDirectory (if (parseArgs args).1 = [] then env.stdinLine
      else (parseArgs args).1) = true)
    (hthrow : env.regularFiles (if (parseArgs args).1 = [] then env.stdinLine
      else (parseArgs args).1) = none) :
    main args env = { exitCode := 134, render := none } := by
  unfold main
  dsimp only
  rw [hexists, hdir, hthrow]
  rfl

/-! ## The end-to-end scenario (C20) -/

/-- C20, failing input: `/res` holds `client/main.lua` (one line without `dependency`),
`server/sv_init.lua` (the line `dependency 'oxmysql'`), `shared/sh_utils.lua` (empty),
`html/ui.html` and `html/app.js`, and the tool is started from `/home`. The five blocks are
as expected, but `server/sv_init.lua` is opened relative to `/home` and does not open: the
dependency set is empty and the document has no line `dependency 'oxmysql'`. Started from
inside `/res` the same scan finds the dependency and the document has the line once. -/
theorem scenario_outside_root_has_no_dependency_line :
    scanDirectory (relativeTo (lit "/res"))
        (openFrom
          (fun p => if p = lit "/res/client/main.lua" then some (lit "print('hi')\n")
            else if p = lit "/res/server/sv_init.lua" then some (lit "dependency 'oxmysql'\n")
            else if p = lit "/res/shared/sh_utils.lua" then some []
            else none)
          (lit "/home"))
        [lit "/res/client/main.lua", lit "/res/server/sv_init.lua",
          lit "/res/shared/sh_utils.lua", lit "/res/html/ui.html", lit "/res/html/app.js"] {}
      = { client_scripts := [lit "client/main.lua"]
          server_scripts := [lit "server/sv_init.lua"]
          shared_scripts := [lit "shared/sh_utils.lua"]
          files := [lit "html/ui.html", lit "html/app.js"]
          ui_pages := [lit "html/ui.html"]
          dependencies := [] } ∧
    manifestLines (filename (lit "/res"))
        { client_scripts := [lit "client/main.lua"]
          server_scripts := [lit "server/sv_init.lua"]
          shared_scripts := [lit "shared/sh_utils.lua"]
          files := [lit "html/ui.html", lit "html/app.js"]
          ui_pages := [lit "html/ui.html"]
          dependencies := [] }
      = [lit "fx_version 'cerulean'", lit "game 'gta5'", [], lit "author 'Auto-Generated'",
          lit "description 'res'", lit "version '1.0.0'", [],
          lit "shared_scripts \x7b", lit "    'shared/sh_utils.lua',", lit "\x7d", [],
          lit "client_scripts \x7b", lit "    'client/main.lua',", lit "\x7d", [],
          lit "server_scripts \x7b", lit "    'server/sv_init.lua',", lit "\x7d", [],
          lit "ui_page \x7b", lit "    'html/ui.html',", lit "\x7d", [],
          lit "files \x7b", lit "    'html/app.js',", lit "    'html/ui.html',", lit "\x7d"] ∧
    (manifestLines (filename (lit "/res"))
        { client_scripts := [lit "client/main.lua"]
          server_scripts := [lit "server/sv_init.lua"]
          shared_scripts := [lit "shared/sh_utils.lua"]
          files := [lit "html/ui.html", lit "html/app.js"]
          ui_pages := [lit "html/ui.html"]
          dependencies := [] }).count (lit "dependency 'oxmysql'") = 0 ∧
    scanDirectory (relativeTo (lit "/res"))
        (openFrom
          (fun p => if p = lit "/res/client/main.lua" then some (lit "print('hi')\n")
            else if p = lit "/res/server/sv_init.lua" then some (lit "dependency 'oxmysql'\n")
            else if p = lit "/res/shared/sh_utils.lua" then some []
            else none)
          (lit "/res"))
        [lit "/res/client/main.lua", lit "/res/server/sv_init.lua",
          lit "/res/shared/sh_utils.lua", lit "/res/html/ui.html", lit "/res/html/app.js"] {}
      = { client_scripts := [lit "client/main.lua"]
          server_scripts := [lit "server/sv_init.lua"]
          shared_scripts := [lit "shared/sh_utils.lua"]
          files := [lit "html/ui.html", lit "html/app.js"]
          ui_pages := [lit "html/ui.html"]
          dependencies := [lit "oxmysql"] } ∧
    (manifestLines (filename (lit "/res"))
        { client_scripts := [lit "client/main.lua"]
          server_scripts := [lit "server/sv_init.lua"]
          shared_scripts := [lit "shared/sh_utils.lua"]
          files := [lit "html/ui.html", lit "html/app.js"]
          ui_pages := [lit "html/ui.html"]
          dependencies := [lit "oxmysql"] }).count (lit "dependency 'oxmysql'") = 1 := by
  refine ⟨by decide, by decide, by decide, by decide, by decide⟩

/-! ## The written lines and the lines of the written text -/

theorem getlines_line (l rest : Str) (h : 10 ∉ l) :
    getlines (l ++ 10 :: rest) = l :: getlines rest := by
  induction l with
  | nil => simp [getlines]
  | cons c cs ih =>
    have hc : c ≠ 10 := fun hc => h (by simp [hc])
    have hcs : 10 ∉ cs := fun hcs => h (List.mem_cons_of_mem _ hcs)
    rw [List.cons_append]
    conv_lhs => rw [getlines]
    rw [if_neg hc, ih hcs]

/-- Lines without a newline byte, each followed by one, split back into the same lines. -/
theorem getlines_unlines (ls : List Str) (h : ∀ l ∈ ls, 10 ∉ l) :
    getlines (ls.flatMap (fun l => l ++ [10])) = ls := by
  induction ls with
  | nil => rfl
  | cons l ls ih =>
    rw [List.flatMap_cons, List.append_assoc, List.singleton_append,
      getlines_line l _ (h l (List.mem_cons_self _ _)),
      ih (fun m hm => h m (List.mem_cons_of_mem _ hm))]

theorem blockLines_no_newline (opening : Str) (v : List Str) (closing : List Str)
    (ho : 10 ∉ opening) (hv : ∀ p ∈ v, 10 ∉ p) (hc : ∀ l ∈ closing, 10 ∉ l) :
    ∀ l ∈ blockLines opening (sortPaths v) closing, 10 ∉ l := by
  intro l hl
  unfold blockLines at hl
  split_ifs at hl
  · rw [List.mem_append, List.mem_append, List.mem_singleton, List.mem_map] at hl
    rcases hl with (hl | ⟨p, hp, hl⟩) | hl
    · rw [hl]; exact ho
    · rw [← hl]
      have hp' : 10 ∉ p := hv p ((sortPaths_perm v).mem_iff.1 hp)
      have h1 : 10 ∉ lit "    '" := by decide
      have h2 : 10 ∉ lit "'," := by decide
      simp only [List.mem_append, not_or]
      exact ⟨⟨h1, hp'⟩, h2⟩
    · exact hc l hl
  · simp at hl

/-- When neither the folder name nor a path nor a dependency name holds a newline byte,
the lines of the written text are the written lines. -/
theorem getlines_manifestText (folderName : Str) (c : FileCategories)
    (hf : 10 ∉ folderName)
    (h1 : ∀ p ∈ c.client_scripts, 10 ∉ p) (h2 : ∀ p ∈ c.server_scripts, 10 ∉ p)
    (h3 : ∀ p ∈ c.shared_scripts, 10 ∉ p) (h4 : ∀ p ∈ c.files, 10 ∉ p)
    (h5 : ∀ p ∈ c.ui_pages, 10 ∉ p) (hd : ∀ d ∈ c.dependencies, 10 ∉ d) :
    getlines (manifestText folderName c) = manifestLines folderName c := by
  rw [manifestText_eq_lines]
  apply getlines_unlines
  intro l hl
  unfold manifestLines at hl
  dsimp only at hl
  simp only [List.mem_append] at hl
  rcases hl with (((((hl | hl) | hl) | hl) | hl) | hl) | hl
  · simp only [List.mem_cons, List.mem_singleton, List.not_mem_nil, or_false] at hl
    rcases hl with h | h | h | h | h | h | h <;> rw [h] <;>
      first
      | decide
      | (have a1 : 10 ∉ lit "description '" := by decide
         have a2 : 10 ∉ lit "'" := by decide
         simp only [List.mem_append, not_or]
         exact ⟨⟨a1, hf⟩, a2⟩)
  · split_ifs at hl
    · rw [List.mem_append, List.mem_map, List.mem_singleton] at hl
      rcases hl with ⟨d, hdm, hl⟩ | hl
      · rw [← hl]
        have a1 : 10 ∉ lit "dependency '" := by decide
        have a2 : 10 ∉ lit "'" := by decide
        simp only [List.mem_append, not_or]
        exact ⟨⟨a1, hd d hdm⟩, a2⟩
      · rw [hl]; simp
    · simp at hl
  · exact blockLines_no_newline _ _ _ (by decide) h3 (by decide) l hl
  · exact blockLines_no_newline _ _ _ (by decide) h1 (by decide) l hl
  · exact blockLines_no_newline _ _ _ (by decide) h2 (by decide) l hl
  · exact blockLines_no_newline _ _ _ (by decide) h5 (by decide) l hl
  · exact blockLines_no_newline _ _ _ (by decide) h4 (by decide) l hl

end Generator
